import Mathlib

/-!
Shallow embedding of the resource aggregation and constraint-validation
engine of the `toprack-studio` backend (`core/models.py`, `core/services.py`,
`core/views.py`).  Django model rows become Lean structures, querysets become
lists in primary-key (insertion) order, and Python dicts become association
lists with insert-at-end / update-in-place semantics, which matches Python's
insertion-ordered dictionaries.
-/

namespace TopRack

/-- `core/models.py: ModuleAttribute` — a resource attribute of a module
type: unit name, integer amount, and the two independent direction flags. -/
structure ModuleAttribute where
  unit : String
  amount : Int
  is_input : Bool
  is_output : Bool
deriving DecidableEq, Repr

/-- `core/models.py: Module` — catalog module type with its attribute list
(`module.attributes.all()` in pk order). -/
structure Module where
  id : Nat
  name : String
  attributes : List ModuleAttribute
deriving DecidableEq, Repr

/-- `core/models.py: DataCenterComponentAttribute` — one constraint
specification of a component: the five integer kind flags (Django
`IntegerField`s, tested for truthiness, i.e. `≠ 0`), the unit, and the
threshold amount. -/
structure ComponentAttribute where
  below_amount : Int
  above_amount : Int
  minimize : Int
  maximize : Int
  unconstrained : Int
  unit : String
  amount : Int
deriving DecidableEq, Repr

/-- `core/models.py: DataCenterComponent` — a structural component, with an
optional bound data center (`data_center` foreign key, nullable) and its
specification list (`component.attributes.all()`). -/
structure DataCenterComponent where
  id : Nat
  name : String
  data_center : Option Nat
  attributes : List ComponentAttribute
deriving DecidableEq, Repr

/-- `core/models.py: DataCenter` — scope record; only `space_x`/`space_y`
are consumed by the engine. -/
structure DataCenter where
  id : Nat
  name : String
  space_x : Int
  space_y : Int
deriving DecidableEq, Repr

/-- `core/models.py: ActiveModule` — a placed module.  The `module` foreign
key is inlined (the catalog is never edited by the engine), the component and
data-center foreign keys are kept as ids, and the `Point` row is inlined as
the two coordinates (point identity is irrelevant to the engine). -/
structure ActiveModule where
  id : Nat
  module : Module
  data_center_component : Option Nat
  data_center : Option Nat
  x : Int
  y : Int
deriving DecidableEq, Repr

/-- `core/models.py: DataCenterValue` — one persisted aggregation row:
`(data_center, component-or-null, unit) → value`, with its primary key. -/
structure DataCenterValue where
  id : Nat
  unit : String
  value : Int
  component : Option Nat
  data_center : Option Nat
deriving DecidableEq, Repr

/-- The database state the services read and write.  Tables are lists in
pk (insertion) order; `next_*` counters model autoincrement primary keys;
`space_x_initial`/`space_y_initial` model
`backend.settings.DataCenterConstants` (a settings file outside the core,
consumed only as the defaults of `DataCenter.get_default`). -/
structure DB where
  modules : List Module
  components : List DataCenterComponent
  data_centers : List DataCenter
  active_modules : List ActiveModule
  values : List DataCenterValue
  next_value_id : Nat
  next_active_id : Nat
  next_dc_id : Nat
  space_x_initial : Int
  space_y_initial : Int
deriving DecidableEq, Repr

/-! ### Python dict as association list -/

/-- `d.get(k)` on a `unit → int` Python dict. -/
def alistGet? (m : List (String × Int)) (k : String) : Option Int :=
  match m with
  | [] => none
  | p :: rest => if p.1 = k then some p.2 else alistGet? rest k

/-- `d.get(k, 0)` on a `unit → int` Python dict. -/
def alistGetD (m : List (String × Int)) (k : String) : Int :=
  (alistGet? m k).getD 0

/-- `k in d` on a Python dict. -/
def alistMem (m : List (String × Int)) (k : String) : Bool :=
  (alistGet? m k).isSome

/-- `d[k] = v` on a Python dict: update in place if the key exists
(keeping its position), else append at the end. -/
def alistSet (m : List (String × Int)) (k : String) (v : Int) : List (String × Int) :=
  match m with
  | [] => [(k, v)]
  | p :: rest => if p.1 = k then (k, v) :: rest else p :: alistSet rest k v

/-- `d.get(k)` on a `componentId → inner dict` Python dict. -/
def natGet? (m : List (Nat × List (String × Int))) (k : Nat) : Option (List (String × Int)) :=
  match m with
  | [] => none
  | p :: rest => if p.1 = k then some p.2 else natGet? rest k

/-- `d.get(k, {})` on a `componentId → inner dict` Python dict. -/
def natGetD (m : List (Nat × List (String × Int))) (k : Nat) : List (String × Int) :=
  (natGet? m k).getD []

/-- `k in d` on a `componentId → inner dict` Python dict. -/
def natMem (m : List (Nat × List (String × Int))) (k : Nat) : Bool :=
  (natGet? m k).isSome

/-- `d[k] = v` on a `componentId → inner dict` Python dict. -/
def natSet (m : List (Nat × List (String × Int))) (k : Nat) (v : List (String × Int)) :
    List (Nat × List (String × Int)) :=
  match m with
  | [] => [(k, v)]
  | p :: rest => if p.1 = k then (k, v) :: rest else p :: natSet rest k v

/-! ### The in-memory aggregation loop
(`ModuleCalculationService.calculate_resource_usage`, services.py 577-622) -/

/-- The two result dicts built by the aggregation loop:
`global_results` and `component_results`. -/
structure CalcResults where
  global_values : List (String × Int)
  component_values : List (Nat × List (String × Int))
deriving DecidableEq, Repr

/-- The signed contribution of one attribute, exactly as the loop body
applies it: `if attr.is_input: -= amount; elif attr.is_output: += amount`
(neither flag → no change, but the unit is still entered with 0). -/
def dirDelta (a : ModuleAttribute) : Int :=
  if a.is_input then -a.amount else if a.is_output then a.amount else 0

/-- One iteration of the inner attribute loop on the global dict: ensure the
unit is present (initialised to 0), then apply the signed update. -/
def applyAttrGlobal (g : List (String × Int)) (a : ModuleAttribute) : List (String × Int) :=
  alistSet g a.unit (alistGetD g a.unit + dirDelta a)

/-- One iteration of the inner attribute loop on one component's dict. -/
def applyAttrComp (m : List (String × Int)) (a : ModuleAttribute) : List (String × Int) :=
  alistSet m a.unit (alistGetD m a.unit + dirDelta a)

/-- One iteration of the inner attribute loop on both result dicts. -/
def applyAttr (res : CalcResults) (comp : Option Nat) (a : ModuleAttribute) : CalcResults :=
  let g := applyAttrGlobal res.global_values a
  match comp with
  | none => { res with global_values := g }
  | some cid =>
      { global_values := g
        component_values := natSet res.component_values cid
          (applyAttrComp (natGetD res.component_values cid) a) }

/-- One iteration of the outer loop over active modules: first register the
module's component in `component_results` (services.py 587-588), then fold
the module's attributes. -/
def applyActiveModule (res : CalcResults) (am : ActiveModule) : CalcResults :=
  let res1 :=
    match am.data_center_component with
    | some cid =>
        if natMem res.component_values cid then res
        else { res with component_values := res.component_values ++ [(cid, [])] }
    | none => res
  am.module.attributes.foldl (fun r a => applyAttr r am.data_center_component a) res1

/-- The full in-memory aggregation (services.py 577-622): fold the selected
active modules, starting from two empty dicts. -/
def calcResults (active_modules : List ActiveModule) : CalcResults :=
  active_modules.foldl applyActiveModule { global_values := [], component_values := [] }

/-! ### Table lookups and the placement selection -/

/-- `DataCenterComponent.objects.get(id=cid)` (first match in pk order). -/
def findComponent? (db : DB) (cid : Nat) : Option DataCenterComponent :=
  db.components.find? (fun c => c.id = cid)

/-- `DataCenter.objects.get(id=i)`. -/
def findDataCenter? (db : DB) (i : Nat) : Option DataCenter :=
  db.data_centers.find? (fun d => d.id = i)

/-- `Module.objects.get(id=i)`. -/
def findModule? (db : DB) (i : Nat) : Option Module :=
  db.modules.find? (fun m => m.id = i)

/-- Whether `cid` names a component whose bound data center is `dcId`. -/
def componentInDC (db : DB) (cid : Nat) (dcId : Nat) : Bool :=
  match findComponent? db cid with
  | some c => c.data_center = some dcId
  | none => false

/-- The selection `Q(data_center=dc) | Q(data_center_component__data_center=dc)`
used by `recalculate_all_values` / `force_recalculate_values` /
`validate_component_values` (services.py 403-406, 426-429, 476-479). -/
def effectiveMatch (db : DB) (dcId : Nat) (am : ActiveModule) : Bool :=
  decide (am.data_center = some dcId) ||
    (match am.data_center_component with
     | some cid => componentInDC db cid dcId
     | none => false)

/-- The active modules selected for a recompute of data center `dcId`. -/
def selectActiveModules (db : DB) (dcId : Nat) : List ActiveModule :=
  db.active_modules.filter (effectiveMatch db dcId)

/-! ### The persistence step of the aggregation
(services.py 624-693) -/

/-- A `DataCenterValue` key: `(data_center, component-or-null, unit)`. -/
abbrev VKey := Option Nat × Option Nat × String

/-- The key of a persisted row. -/
def rowKey (v : DataCenterValue) : VKey := (v.data_center, v.component, v.unit)

/-- `DataCenterValue.objects.filter(data_center=…, component=…, unit=…)`,
in pk (insertion) order. -/
def getRows (vals : List DataCenterValue) (k : VKey) : List DataCenterValue :=
  vals.filter (fun v => rowKey v = k)

/-- A fresh row for key `k`. -/
def mkValue (id : Nat) (k : VKey) (value : Int) : DataCenterValue :=
  { id := id, unit := k.2.2, value := value, component := k.2.1, data_center := k.1 }

/-- The row-list update of the healing branch: keep a row when its key
differs from `k` or its id is the primary's (`values.exclude(id=…)` deletes
the other key-matching rows), and write `value` into the primary
(`primary_value.value = value; primary_value.save()`); with a single
key-matching row this is exactly `values.update(value=value)`. -/
def healUpdate (vals : List DataCenterValue) (k : VKey) (pid : Nat) (value : Int) :
    List DataCenterValue :=
  match vals with
  | [] => []
  | v :: rest =>
      if rowKey v = k then
        (if v.id = pid then { v with value := value } :: healUpdate rest k pid value
         else healUpdate rest k pid value)
      else v :: healUpdate rest k pid value

/-- Upsert of one computed total (services.py 627-653 for the global case,
661-687 for the component case; both branches are the same code):
if no row matches the key, create one; otherwise update the first matching
row (`values.first()`) in place and delete every other row matching the
key. -/
def persistKey (db : DB) (k : VKey) (value : Int) : DB :=
  match getRows db.values k with
  | [] =>
      { db with values := db.values ++ [mkValue db.next_value_id k value],
                next_value_id := db.next_value_id + 1 }
  | primary :: _ =>
      { db with values := healUpdate db.values k primary.id value }

/-- A fold of `persistKey` over one result dict, with `kf` building the
full row key of a unit. -/
def persistUnits (db : DB) (kf : String → VKey) (units : List (String × Int)) : DB :=
  units.foldl (fun d p => persistKey d (kf p.1) p.2) db

/-- The loop over `global_results.items()` (services.py 626-653). -/
def persistGlobals (db : DB) (dcId : Nat) (gs : List (String × Int)) : DB :=
  persistUnits db (fun u => (some dcId, none, u)) gs

/-- The inner loop over one component's `units.items()` (services.py 660-687). -/
def persistComponentUnits (db : DB) (dcId : Nat) (cid : Nat) (units : List (String × Int)) : DB :=
  persistUnits db (fun u => (some dcId, some cid, u)) units

/-- The loop over `component_results.items()` (services.py 656-692):
a component id that no longer resolves is skipped (the
`DataCenterComponent.DoesNotExist` handler only logs). -/
def persistComponents (db : DB) (dcId : Nat) (cs : List (Nat × List (String × Int))) : DB :=
  cs.foldl (fun d p =>
    match findComponent? d p.1 with
    | none => d
    | some _ => persistComponentUnits d dcId p.1 p.2) db

/-- `ModuleCalculationService.calculate_resource_usage` (services.py
562-697): compute the two result dicts from the given active modules, then
persist every touched key, and return the computed dicts. -/
def calculate_resource_usage (db : DB) (ams : List ActiveModule) (dcId : Nat) :
    DB × CalcResults :=
  let res := calcResults ams
  let db1 := persistGlobals db dcId res.global_values
  let db2 := persistComponents db1 dcId res.component_values
  (db2, res)

/-! ### Reading the value store back
(`DataCenterValueService.force_recalculate_values`, services.py 410-449) -/

/-- One component row folded into the nested read-back dict (services.py
440-444): `component_values[str(dcv.component.id)][dcv.unit] = dcv.value`. -/
def readCompStep (m : List (Nat × List (String × Int))) (v : DataCenterValue) :
    List (Nat × List (String × Int)) :=
  match v.component with
  | some cid => natSet m cid (alistSet (natGetD m cid) v.unit v.value)
  | none => m

/-- The two read-back dicts of `force_recalculate_values` (services.py
433-444): one pass over the global rows of the data center, one pass over
its component rows, each building a Python dict in row order. -/
def readValues (vals : List DataCenterValue) (dcId : Nat) : CalcResults :=
  { global_values :=
      (vals.filter (fun v => v.data_center = some dcId ∧ v.component = none)).foldl
        (fun m v => alistSet m v.unit v.value) []
    component_values :=
      (vals.filter (fun v => v.data_center = some dcId ∧ v.component ≠ none)).foldl
        readCompStep [] }

/-- `DataCenterValueService.force_recalculate_values` (services.py 410-449):
select the data center's placements, run the aggregation (persisting its
results), then read the persisted rows back into two dicts. -/
def force_recalculate_values (db : DB) (dcId : Nat) : DB × CalcResults :=
  let ams := selectActiveModules db dcId
  let db1 := (calculate_resource_usage db ams dcId).1
  (db1, readValues db1.values dcId)

/-! ### Initialization
(`DataCenterValueService.initialize_values_from_components`,
services.py 320-385) -/

/-- One `get_or_create(unit=…, component=…, data_center=…, defaults=…)`
followed by `if not created: value_obj.value = value; value_obj.save()`
(services.py 372-381).  Every branch of the preceding dict construction puts
`0`, so the written value is always `0`. -/
def initUpdate (vals : List DataCenterValue) (k : VKey) (rid : Nat) :
    List DataCenterValue :=
  match vals with
  | [] => []
  | v :: rest =>
      (if rowKey v = k ∧ v.id = rid then { v with value := 0 } else v) :: initUpdate rest k rid

def initWrite (db : DB) (k : VKey) : DB :=
  match getRows db.values k with
  | [] =>
      { db with values := db.values ++ [mkValue db.next_value_id k 0],
                next_value_id := db.next_value_id + 1 }
  | r :: _ =>
      { db with values := initUpdate db.values k r.id }

/-- The units of one component's dict entry: a Python dict deduplicates
repeated units, keeping first-occurrence order. -/
def dedupUnits (attrs : List ComponentAttribute) : List String :=
  attrs.foldl (fun acc a => if acc.contains a.unit then acc else acc ++ [a.unit]) []

/-- `DataCenterValueService.initialize_values_from_components` (services.py
320-385): the first loop binds every unbound component to the given data
center and builds `component_values` (every unit mapped to `0`); the second
loop writes each `(component, unit)` key with `initWrite`. -/
def initialize_values_from_components (db : DB) (dcId : Nat) : DB :=
  let bound := db.components.map (fun c =>
    if c.data_center = none then { c with data_center := some dcId } else c)
  let db1 := { db with components := bound }
  db1.components.foldl
    (fun d c => (dedupUnits c.attributes).foldl
      (fun d2 u => initWrite d2 (some dcId, some c.id, u)) d) db1

/-! ### Placement removal
(`ActiveModuleService.delete_active_module`, services.py 258-288, and
`ActiveModuleViewSet.destroy`, views.py 249-259) -/

/-- The observable outcome of a Python call: a returned value, or an
exception propagating to the caller. -/
inductive PyResult (α : Type) where
  | ok : α → PyResult α
  | exn : String → PyResult α
deriving DecidableEq, Repr

/-- `ActiveModuleService.delete_active_module` (services.py 258-288): look
the placement up; on `ActiveModule.DoesNotExist` the handler returns
`False` (no exception escapes); otherwise delete the row and return `True`.
No value recalculation is performed. -/
def delete_active_module (db : DB) (amId : Nat) : DB × PyResult Bool :=
  match db.active_modules.find? (fun am => am.id = amId) with
  | none => (db, .ok false)
  | some _ =>
      ({ db with active_modules := db.active_modules.filter (fun am => am.id ≠ amId) },
       .ok true)

/-- `ActiveModuleViewSet.destroy` (views.py 249-259): `get_object` answers
404 when the id is absent; otherwise `delete_active_module` runs and the
response is 200 on `True`, 400 on `False`.  Returns the HTTP status. -/
def destroy (db : DB) (amId : Nat) : DB × Nat :=
  match db.active_modules.find? (fun am => am.id = amId) with
  | none => (db, 404)
  | some am =>
      let r := delete_active_module db am.id
      match r.2 with
      | .ok true => (r.1, 200)
      | .ok false => (r.1, 400)
      | .exn _ => (r.1, 500)

/-! ### Placement creation
(`ActiveModuleService.create_active_module`, services.py 142-222) -/

/-- `DataCenter.get_default` (models.py 29-51): get-or-create the data
center named "Default Data Center", with the settings constants as its
dimensions.  (The polygon points it also seeds are outside the engine.) -/
def get_default (db : DB) : DB × DataCenter :=
  match db.data_centers.find? (fun d => d.name = "Default Data Center") with
  | some d => (db, d)
  | none =>
      let d : DataCenter :=
        ⟨db.next_dc_id, "Default Data Center", db.space_x_initial, db.space_y_initial⟩
      ({ db with data_centers := db.data_centers ++ [d], next_dc_id := db.next_dc_id + 1 }, d)

/-- The data-center resolution of `create_active_module` (services.py
174-184): an explicit `data_center` id is looked up (absent → `none`, which
the caller turns into an error); otherwise a component's bound data center
is used directly (a foreign key, no lookup); otherwise the default data
center is fetched or created.  Returns the resolved data-center id. -/
def resolve_data_center (db : DB) (component : Option DataCenterComponent)
    (dataCenterId : Option Nat) : DB × Option Nat :=
  match dataCenterId with
  | some i => (db, if (findDataCenter? db i).isSome then some i else none)
  | none =>
      match component with
      | some c =>
          match c.data_center with
          | some d => (db, some d)
          | none => let r := get_default db; (r.1, some r.2.id)
      | none => let r := get_default db; (r.1, some r.2.id)

/-- The body of `create_active_module` after the module and component
arguments have been resolved (services.py 174-212): resolve the data
center, require both coordinates, create the placement, bind the component
to the data center when it had none, then run `force_recalculate_values`. -/
def create_active_module_core (db : DB) (module : Module)
    (comp? : Option DataCenterComponent) (dataCenterId : Option Nat)
    (x? y? : Option Int) : DB × PyResult ActiveModule :=
  let r := resolve_data_center db comp? dataCenterId
  let db1 := r.1
  match r.2 with
  | none =>
      (db1, .exn ("DataCenter with ID does not exist"))
  | some dcId =>
      match x?, y? with
      | some x, some y =>
          let am : ActiveModule :=
            ⟨db1.next_active_id, module,
              comp?.map (fun (c : DataCenterComponent) => c.id), some dcId, x, y⟩
          let db2 := { db1 with active_modules := db1.active_modules ++ [am],
                                next_active_id := db1.next_active_id + 1 }
          let db3 :=
            match comp? with
            | some c =>
                if c.data_center = none then
                  { db2 with components := db2.components.map (fun c2 =>
                      if c2.id = c.id then { c2 with data_center := some dcId } else c2) }
                else db2
            | none => db2
          let db4 := (force_recalculate_values db3 dcId).1
          (db4, .ok am)
      | _, _ =>
          (db1, .exn "Failed to create active module: x and y coordinates are required")

/-- `ActiveModuleService.create_active_module` (services.py 142-222), id
based argument form: resolve the module and optional component, then run
the creation body.  Missing references become `ValueError`s (`.exn`). -/
def create_active_module (db : DB) (moduleId : Nat) (componentId : Option Nat)
    (dataCenterId : Option Nat) (x? y? : Option Int) : DB × PyResult ActiveModule :=
  match findModule? db moduleId with
  | none => (db, .exn ("Module with ID " ++ toString moduleId ++ " does not exist"))
  | some module =>
      match componentId with
      | none => create_active_module_core db module none dataCenterId x? y?
      | some cid =>
          match findComponent? db cid with
          | none =>
              (db, .exn ("DataCenterComponent with ID " ++ toString cid ++ " does not exist"))
          | some c => create_active_module_core db module (some c) dataCenterId x? y?

/-! ### Constraint validation
(`DataCenterComponentService.validate_component_values`, services.py
457-554) -/

/-- The running validation state: `validation_passed` and the
`unique_violations_dict` keyed by `(component name, unit, kind)`. -/
structure ValState where
  passed : Bool
  violations : List ((String × String × String) × String)
deriving DecidableEq, Repr

/-- `unique_violations_dict[key] = message`: Python dict assignment —
update in place keeping position, else append. -/
def violSet (m : List ((String × String × String) × String))
    (k : String × String × String) (msg : String) :
    List ((String × String × String) × String) :=
  match m with
  | [] => [(k, msg)]
  | p :: rest => if p.1 = k then (k, msg) :: rest else p :: violSet rest k msg

/-- The per-specification check of `validate_component_values` (services.py
513-550): skip unconstrained or `amount == -1` specifications; read the
current value from the component's own dict with default `0`; space units
compare against the data center's dimension; otherwise a truthy
`below_amount` fails on `current > amount` and a truthy `above_amount`
fails on `current < amount`. -/
def checkAttr (dc : DataCenter) (compName : String) (compVals : List (String × Int))
    (st : ValState) (attr : ComponentAttribute) : ValState :=
  if attr.unconstrained ≠ 0 ∨ attr.amount = -1 then st
  else
    let unit := attr.unit
    let amount := attr.amount
    let current := alistGetD compVals unit
    if unit = "Space_X" ∨ unit = "Space_Y" then
      let total : Int := if unit = "Space_X" then dc.space_x else dc.space_y
      if current > total then
        { passed := false,
          violations := violSet st.violations (compName, unit, "exceeds")
            ("Component " ++ compName ++ ": Used " ++ unit ++ " (" ++ toString current ++
              ") exceeds total " ++ unit ++ " (" ++ toString total ++ ")") }
      else st
    else
      let st1 :=
        if attr.below_amount ≠ 0 ∧ current > amount then
          { passed := false,
            violations := violSet st.violations (compName, unit, "below")
              ("Component " ++ compName ++ ": " ++ unit ++ " value (" ++ toString current ++
                ") should be less than or equal to " ++ toString amount) }
        else st
      if attr.above_amount ≠ 0 ∧ current < amount then
        { passed := false,
          violations := violSet st1.violations (compName, unit, "above")
            ("Component " ++ compName ++ ": " ++ unit ++ " value (" ++ toString current ++
              ") should be greater than or equal to " ++ toString amount) }
      else st1

/-- The per-component loop body of `validate_component_values` (services.py
501-550): look up the component's own value dict (default empty — "don't
fall back to global") and fold its specifications. -/
def checkComponent (dc : DataCenter) (cvals : List (Nat × List (String × Int)))
    (st : ValState) (comp : DataCenterComponent) : ValState :=
  comp.attributes.foldl (checkAttr dc comp.name (natGetD cvals comp.id)) st

/-- The `calculated_values` validation reads from (services.py 476-482): one
direct `calculate_resource_usage` over the selected placements, then
`force_recalculate_values` (which recomputes again and reads the rows back). -/
def validate_calculated_values (db : DB) (dc : DataCenter) : DB × CalcResults :=
  let ams := selectActiveModules db dc.id
  let db1 := (calculate_resource_usage db ams dc.id).1
  force_recalculate_values db1 dc.id

/-- `DataCenterComponentService.validate_component_values` (services.py
457-554): recompute and read back the value store, select the components
(the given one, else those of the data center, else all), fold the checks,
and return `(passed, violations)`. -/
def validate_component_values (db : DB) (component : Option DataCenterComponent)
    (dc : DataCenter) : DB × (Bool × List String) :=
  let r := validate_calculated_values db dc
  let db2 := r.1
  let calcVals := r.2
  let comps : List DataCenterComponent :=
    match component with
    | some c => [c]
    | none =>
        let inDC := db2.components.filter (fun c => c.data_center = some dc.id)
        if inDC.isEmpty then db2.components else inDC
  let st : ValState := comps.foldl (checkComponent dc calcVals.component_values) ⟨true, []⟩
  (db2, (st.passed, st.violations.map (·.2)))

/-! ### Well-formedness of the value store -/

/-- Primary keys of the persisted value rows are distinct. -/
def nodupIds (vals : List DataCenterValue) : Prop :=
  (vals.map (·.id)).Nodup

/-- Every persisted row id is below the autoincrement counter. -/
def idsBelow (vals : List DataCenterValue) (n : Nat) : Prop :=
  ∀ v ∈ vals, v.id < n

/-- Database well-formedness used by the persistence lemmas: distinct row
ids, all below the autoincrement counter. -/
def wfValues (db : DB) : Prop :=
  nodupIds db.values ∧ idsBelow db.values db.next_value_id

instance (vals : List DataCenterValue) : Decidable (nodupIds vals) := by
  unfold nodupIds; infer_instance

instance (vals : List DataCenterValue) (n : Nat) : Decidable (idsBelow vals n) := by
  unfold idsBelow; infer_instance

instance (db : DB) : Decidable (wfValues db) := by
  unfold wfValues; infer_instance

/-! ## Lemmas about the Python-dict model -/

theorem alistGet?_set_eq (m : List (String × Int)) (k : String) (v : Int) :
    alistGet? (alistSet m k v) k = some v := by
  induction m with
  | nil => simp [alistSet, alistGet?]
  | cons p rest ih =>
      by_cases h : p.1 = k <;> simp [alistSet, alistGet?, h, ih]

theorem alistGet?_set_ne (m : List (String × Int)) (k k' : String) (v : Int)
    (h : k' ≠ k) : alistGet? (alistSet m k v) k' = alistGet? m k' := by
  induction m with
  | nil => simp [alistSet, alistGet?, Ne.symm h]
  | cons p rest ih =>
      by_cases hp : p.1 = k
      · simp [alistSet, alistGet?, hp, Ne.symm h]
      · simp [alistSet, alistGet?, hp, ih]

theorem alistGetD_set_eq (m : List (String × Int)) (k : String) (v : Int) :
    alistGetD (alistSet m k v) k = v := by
  simp [alistGetD, alistGet?_set_eq]

theorem alistGetD_set_ne (m : List (String × Int)) (k k' : String) (v : Int)
    (h : k' ≠ k) : alistGetD (alistSet m k v) k' = alistGetD m k' := by
  simp [alistGetD, alistGet?_set_ne m k k' v h]

theorem natGet?_set_eq (m : List (Nat × List (String × Int))) (k : Nat)
    (v : List (String × Int)) : natGet? (natSet m k v) k = some v := by
  induction m with
  | nil => simp [natSet, natGet?]
  | cons p rest ih =>
      by_cases h : p.1 = k <;> simp [natSet, natGet?, h, ih]

theorem natGet?_set_ne (m : List (Nat × List (String × Int))) (k k' : Nat)
    (v : List (String × Int)) (h : k' ≠ k) :
    natGet? (natSet m k v) k' = natGet? m k' := by
  induction m with
  | nil => simp [natSet, natGet?, Ne.symm h]
  | cons p rest ih =>
      by_cases hp : p.1 = k
      · simp [natSet, natGet?, hp, Ne.symm h]
      · simp [natSet, natGet?, hp, ih]

/-! ## Lemmas about dict membership -/

theorem alistGet?_mem (m : List (String × Int)) (u : String) (v : Int)
    (h : alistGet? m u = some v) : (u, v) ∈ m := by
  induction m with
  | nil => simp [alistGet?] at h
  | cons p rest ih =>
      by_cases hp : p.1 = u
      · simp only [alistGet?, hp, if_pos, Option.some.injEq] at h
        have hpv : p = (u, v) := by
          cases p
          simp_all
        rw [hpv]
        exact List.mem_cons_self _ _
      · simp only [alistGet?, hp, if_neg, if_false] at h
        exact List.mem_cons_of_mem p (ih h)

theorem alist_mem_get? (m : List (String × Int)) (u : String) (v : Int)
    (hnd : (m.map (·.1)).Nodup) (h : (u, v) ∈ m) : alistGet? m u = some v := by
  induction m with
  | nil => simp at h
  | cons p rest ih =>
      rw [List.map_cons, List.nodup_cons] at hnd
      rcases List.mem_cons.mp h with h | h
      · rw [← h]
        simp [alistGet?]
      · have hp : p.1 ≠ u := by
          intro hcontra
          exact hnd.1 (hcontra ▸ List.mem_map_of_mem (·.1) h)
        simp only [alistGet?, hp, if_neg, if_false]
        exact ih hnd.2 h

theorem natGet?_mem (m : List (Nat × List (String × Int))) (c : Nat)
    (x : List (String × Int)) (h : natGet? m c = some x) : (c, x) ∈ m := by
  induction m with
  | nil => simp [natGet?] at h
  | cons p rest ih =>
      by_cases hp : p.1 = c
      · simp only [natGet?, hp, if_pos, Option.some.injEq] at h
        have hpv : p = (c, x) := by
          cases p
          simp_all
        rw [hpv]
        exact List.mem_cons_self _ _
      · simp only [natGet?, hp, if_neg, if_false] at h
        exact List.mem_cons_of_mem p (ih h)

theorem nat_mem_get? (m : List (Nat × List (String × Int))) (c : Nat)
    (x : List (String × Int)) (hnd : (m.map (·.1)).Nodup) (h : (c, x) ∈ m) :
    natGet? m c = some x := by
  induction m with
  | nil => simp at h
  | cons p rest ih =>
      rw [List.map_cons, List.nodup_cons] at hnd
      rcases List.mem_cons.mp h with h | h
      · rw [← h]
        simp [natGet?]
      · have hp : p.1 ≠ c := by
          intro hcontra
          exact hnd.1 (hcontra ▸ List.mem_map_of_mem (·.1) h)
        simp only [natGet?, hp, if_neg, if_false]
        exact ih hnd.2 h

/-! ## Lemmas about persistence -/

theorem rowKey_mkValue (i : Nat) (k : VKey) (v : Int) : rowKey (mkValue i k v) = k := by
  simp [rowKey, mkValue]

theorem rowKey_setValue (v : DataCenterValue) (x : Int) :
    rowKey { v with value := x } = rowKey v := rfl

theorem getRows_cons (v : DataCenterValue) (l : List DataCenterValue) (k : VKey) :
    getRows (v :: l) k = if rowKey v = k then v :: getRows l k else getRows l k := by
  by_cases h : rowKey v = k <;> simp [getRows, List.filter_cons, h]

theorem getRows_append (l1 l2 : List DataCenterValue) (k : VKey) :
    getRows (l1 ++ l2) k = getRows l1 k ++ getRows l2 k := by
  simp [getRows, List.filter_append]

theorem getRows_single (v : DataCenterValue) (k : VKey) :
    getRows [v] k = if rowKey v = k then [v] else [] := by
  by_cases h : rowKey v = k <;> simp [getRows, List.filter_cons, h]

theorem getRows_ids_sublist (l : List DataCenterValue) (k : VKey) :
    List.Sublist ((getRows l k).map (·.id)) (l.map (·.id)) :=
  List.Sublist.map _ (List.filter_sublist l)

theorem healUpdate_frame (vals : List DataCenterValue) (k : VKey) (pid : Nat) (value : Int)
    (k' : VKey) (h : k' ≠ k) :
    getRows (healUpdate vals k pid value) k' = getRows vals k' := by
  induction vals with
  | nil => rfl
  | cons v rest ih =>
      by_cases h1 : rowKey v = k
      · have h1' : ¬(rowKey v = k') := by rw [h1]; exact Ne.symm h
        by_cases h2 : v.id = pid
        · subst h2
          simp [healUpdate, h1, getRows_cons, rowKey_setValue, h1', Ne.symm h, ih]
        · simp [healUpdate, h1, h2, getRows_cons, h1', Ne.symm h, ih]
      · simp [healUpdate, h1, getRows_cons, ih]

theorem healUpdate_getRows (vals : List DataCenterValue) (k : VKey) (pid : Nat) (value : Int) :
    getRows (healUpdate vals k pid value) k
      = ((getRows vals k).filter (fun v => v.id = pid)).map
          (fun v => { v with value := value }) := by
  induction vals with
  | nil => rfl
  | cons v rest ih =>
      by_cases h1 : rowKey v = k
      · by_cases h2 : v.id = pid
        · subst h2
          simp [healUpdate, h1, getRows_cons, rowKey_setValue, ih, List.filter_cons]
        · simp [healUpdate, h1, h2, getRows_cons, ih, List.filter_cons]
      · simp [healUpdate, h1, getRows_cons, ih]

theorem healUpdate_ids_sublist (vals : List DataCenterValue) (k : VKey) (pid : Nat)
    (value : Int) :
    List.Sublist ((healUpdate vals k pid value).map (·.id)) (vals.map (·.id)) := by
  induction vals with
  | nil => exact List.Sublist.refl _
  | cons v rest ih =>
      by_cases h1 : rowKey v = k
      · by_cases h2 : v.id = pid
        · subst h2
          simpa [healUpdate, h1] using ih.cons₂ v.id
        · simpa [healUpdate, h1, h2] using ih.cons v.id
      · simpa [healUpdate, h1] using ih.cons₂ v.id

theorem healUpdate_nomatch (vals : List DataCenterValue) (k : VKey) (pid : Nat) (value : Int)
    (h : getRows vals k = []) : healUpdate vals k pid value = vals := by
  induction vals with
  | nil => rfl
  | cons v rest ih =>
      rw [getRows_cons] at h
      by_cases h1 : rowKey v = k
      · simp [h1] at h
      · simp only [h1, if_neg, if_false] at h
        simp [healUpdate, h1, ih h]

theorem healUpdate_id (vals : List DataCenterValue) (k : VKey) (r : DataCenterValue)
    (v : Int) (hrow : getRows vals k = [r]) (hv : r.value = v) :
    healUpdate vals k r.id v = vals := by
  induction vals with
  | nil => rfl
  | cons w rest ih =>
      rw [getRows_cons] at hrow
      by_cases h1 : rowKey w = k
      · rw [if_pos h1] at hrow
        have hw : w = r := (List.cons_eq_cons.mp hrow).1
        have hrest : getRows rest k = [] := (List.cons_eq_cons.mp hrow).2
        subst hw
        have hval : ({ w with value := v } : DataCenterValue) = w := by
          rw [← hv]
        simp [healUpdate, h1, hval, healUpdate_nomatch rest k w.id v hrest]
      · rw [if_neg h1] at hrow
        simp [healUpdate, h1, ih hrow]

theorem persistKey_tables (db : DB) (k : VKey) (value : Int) :
    (persistKey db k value).components = db.components ∧
    (persistKey db k value).active_modules = db.active_modules ∧
    (persistKey db k value).modules = db.modules ∧
    (persistKey db k value).data_centers = db.data_centers := by
  unfold persistKey
  split <;> exact ⟨rfl, rfl, rfl, rfl⟩

theorem persistKey_frame (db : DB) (k : VKey) (value : Int) (k' : VKey) (h : k' ≠ k) :
    getRows (persistKey db k value).values k' = getRows db.values k' := by
  unfold persistKey
  split
  · show getRows (db.values ++ [mkValue db.next_value_id k value]) k' = getRows db.values k'
    rw [getRows_append, getRows_single, rowKey_mkValue, if_neg (Ne.symm h)]
    simp
  · exact healUpdate_frame db.values k _ value k' h

theorem persistKey_written (db : DB) (k : VKey) (value : Int) (hnd : nodupIds db.values) :
    ∃ r, getRows (persistKey db k value).values k = [r] ∧ r.value = value := by
  unfold persistKey
  split
  · next heq =>
      refine ⟨mkValue db.next_value_id k value, ?_, rfl⟩
      show getRows (db.values ++ [mkValue db.next_value_id k value]) k = _
      rw [getRows_append, getRows_single, rowKey_mkValue, if_pos rfl, heq]
      rfl
  · next primary rest heq =>
      refine ⟨{ primary with value := value }, ?_, rfl⟩
      show getRows (healUpdate db.values k primary.id value) k = _
      rw [healUpdate_getRows, heq]
      have hsub : List.Sublist ((primary :: rest).map (·.id)) (db.values.map (·.id)) := by
        rw [← heq]
        exact getRows_ids_sublist db.values k
      have hnd2 : ((primary :: rest).map (·.id)).Nodup := List.Nodup.sublist hsub hnd
      rw [List.map_cons, List.nodup_cons] at hnd2
      have hrest : rest.filter (fun v => v.id = primary.id) = [] := by
        rw [List.filter_eq_nil_iff]
        intro w hw
        simp only [decide_eq_true_eq]
        intro hcontra
        exact hnd2.1 (hcontra ▸ List.mem_map_of_mem (·.id) hw)
      rw [List.filter_cons]
      simp only [decide_eq_true_eq, if_pos rfl, hrest]
      rfl

theorem persistKey_wf (db : DB) (k : VKey) (value : Int) (hwf : wfValues db) :
    wfValues (persistKey db k value) := by
  obtain ⟨hnd, hbelow⟩ := hwf
  unfold persistKey
  split
  · constructor
    · show ((db.values ++ [mkValue db.next_value_id k value]).map (·.id)).Nodup
      rw [List.map_append, List.nodup_append]
      refine ⟨hnd, by simp, ?_⟩
      intro a ha
      rcases List.mem_map.mp ha with ⟨w, hw, hwa⟩
      simp only [List.map_cons, List.map_nil, List.mem_singleton, mkValue]
      intro hcontra
      rw [hcontra] at hwa
      exact absurd (hwa ▸ hbelow w hw) (lt_irrefl _)
    · intro v hv
      show v.id < db.next_value_id + 1
      rcases List.mem_append.mp hv with h | h
      · exact Nat.lt_succ_of_lt (hbelow v h)
      · simp only [List.mem_singleton] at h
        rw [h]
        exact Nat.lt_succ_self _
  · constructor
    · exact List.Nodup.sublist (healUpdate_ids_sublist db.values k _ value) hnd
    · intro v hv
      have hmem : v.id ∈ db.values.map (·.id) :=
        (healUpdate_ids_sublist db.values k _ value).subset (List.mem_map_of_mem (·.id) hv)
      rcases List.mem_map.mp hmem with ⟨w, hw, hwv⟩
      show v.id < db.next_value_id
      rw [← hwv]
      exact hbelow w hw

theorem persistKey_id (db : DB) (k : VKey) (v : Int) (r : DataCenterValue)
    (hrow : getRows db.values k = [r]) (hv : r.value = v) : persistKey db k v = db := by
  unfold persistKey
  rw [hrow]
  show { db with values := healUpdate db.values k r.id v } = db
  rw [healUpdate_id db.values k r v hrow hv]

/-! ## Key sets of the result dicts -/

theorem alistMem_iff (m : List (String × Int)) (u : String) :
    alistMem m u = true ↔ u ∈ m.map (·.1) := by
  induction m with
  | nil => simp [alistMem, alistGet?]
  | cons p rest ih =>
      by_cases hp : p.1 = u
      · simp [alistMem, alistGet?, hp]
      · have hstep : alistMem (p :: rest) u = alistMem rest u := by
          simp [alistMem, alistGet?, hp]
        rw [hstep, ih, List.map_cons, List.mem_cons]
        constructor
        · exact Or.inr
        · rintro (h | h)
          · exact absurd h.symm hp
          · exact h

theorem natMem_iff (m : List (Nat × List (String × Int))) (c : Nat) :
    natMem m c = true ↔ c ∈ m.map (·.1) := by
  induction m with
  | nil => simp [natMem, natGet?]
  | cons p rest ih =>
      by_cases hp : p.1 = c
      · simp [natMem, natGet?, hp]
      · have hstep : natMem (p :: rest) c = natMem rest c := by
          simp [natMem, natGet?, hp]
        rw [hstep, ih, List.map_cons, List.mem_cons]
        constructor
        · exact Or.inr
        · rintro (h | h)
          · exact absurd h.symm hp
          · exact h

theorem alistSet_keys (m : List (String × Int)) (k : String) (v : Int) :
    (alistSet m k v).map (·.1)
      = if alistMem m k then m.map (·.1) else m.map (·.1) ++ [k] := by
  induction m with
  | nil => simp [alistSet, alistMem, alistGet?]
  | cons p rest ih =>
      by_cases hp : p.1 = k
      · simp [alistSet, alistMem, alistGet?, hp]
      · simp only [alistSet, hp, if_neg, if_false, List.map_cons, ih,
          alistMem, alistGet?]
        by_cases hm : (alistGet? rest k).isSome <;> simp [hm]

theorem alistSet_keys_nodup (m : List (String × Int)) (k : String) (v : Int)
    (h : (m.map (·.1)).Nodup) : ((alistSet m k v).map (·.1)).Nodup := by
  rw [alistSet_keys]
  by_cases hm : alistMem m k
  · simpa [hm] using h
  · simp only [hm, if_neg, if_false, Bool.false_eq_true]
    rw [List.nodup_append]
    refine ⟨h, by simp, ?_⟩
    intro a ha
    simp only [List.mem_singleton]
    intro hcontra
    rw [hcontra] at ha
    exact hm ((alistMem_iff m k).mpr ha)

theorem natSet_keys (m : List (Nat × List (String × Int))) (k : Nat)
    (v : List (String × Int)) :
    (natSet m k v).map (·.1)
      = if natMem m k then m.map (·.1) else m.map (·.1) ++ [k] := by
  induction m with
  | nil => simp [natSet, natMem, natGet?]
  | cons p rest ih =>
      by_cases hp : p.1 = k
      · simp [natSet, natMem, natGet?, hp]
      · simp only [natSet, hp, if_neg, if_false, List.map_cons, ih, natMem, natGet?]
        by_cases hm : (natGet? rest k).isSome <;> simp [hm]

theorem natSet_keys_nodup (m : List (Nat × List (String × Int))) (k : Nat)
    (v : List (String × Int)) (h : (m.map (·.1)).Nodup) :
    ((natSet m k v).map (·.1)).Nodup := by
  rw [natSet_keys]
  by_cases hm : natMem m k
  · simpa [hm] using h
  · simp only [hm, if_neg, if_false, Bool.false_eq_true]
    rw [List.nodup_append]
    refine ⟨h, by simp, ?_⟩
    intro a ha
    simp only [List.mem_singleton]
    intro hcontra
    rw [hcontra] at ha
    exact hm ((natMem_iff m k).mpr ha)

theorem natSet_mem (m : List (Nat × List (String × Int))) (k : Nat)
    (x : List (String × Int)) (q : Nat × List (String × Int)) (h : q ∈ natSet m k x) :
    q = (k, x) ∨ q ∈ m := by
  induction m with
  | nil => simpa [natSet] using h
  | cons p rest ih =>
      by_cases hp : p.1 = k
      · simp only [natSet, hp, if_pos] at h
        rcases List.mem_cons.mp h with h | h
        · exact Or.inl h
        · exact Or.inr (List.mem_cons_of_mem p h)
      · simp only [natSet, hp, if_neg, if_false] at h
        rcases List.mem_cons.mp h with h | h
        · exact Or.inr (h ▸ List.mem_cons_self p rest)
        · rcases ih h with h | h
          · exact Or.inl h
          · exact Or.inr (List.mem_cons_of_mem p h)

/-- The key-uniqueness invariant of the two result dicts: the global dict,
the outer component dict and every inner dict have pairwise-distinct keys
(true of every Python dict). -/
def goodRes (res : CalcResults) : Prop :=
  (res.global_values.map (·.1)).Nodup ∧ (res.component_values.map (·.1)).Nodup ∧
    ∀ q ∈ res.component_values, (q.2.map (·.1)).Nodup

theorem applyAttr_good (res : CalcResults) (comp : Option Nat) (a : ModuleAttribute)
    (h : goodRes res) : goodRes (applyAttr res comp a) := by
  obtain ⟨hg, hc, hi⟩ := h
  cases comp with
  | none => exact ⟨alistSet_keys_nodup _ _ _ hg, hc, hi⟩
  | some cid =>
      refine ⟨alistSet_keys_nodup _ _ _ hg, natSet_keys_nodup _ _ _ hc, ?_⟩
      intro q hq
      rcases natSet_mem _ _ _ _ hq with h | h
      · rw [h]
        show ((applyAttrComp (natGetD res.component_values cid) a).map (·.1)).Nodup
        apply alistSet_keys_nodup
        unfold natGetD
        cases hg2 : natGet? res.component_values cid with
        | none => simp
        | some m0 =>
            simpa using hi (cid, m0) (natGet?_mem _ _ _ hg2)
      · exact hi q h

theorem foldAttrs_good (attrs : List ModuleAttribute) (comp : Option Nat)
    (res : CalcResults) (h : goodRes res) :
    goodRes (attrs.foldl (fun r a => applyAttr r comp a) res) := by
  induction attrs generalizing res with
  | nil => exact h
  | cons a rest ih => exact ih _ (applyAttr_good res comp a h)

theorem applyActiveModule_good (res : CalcResults) (am : ActiveModule)
    (h : goodRes res) : goodRes (applyActiveModule res am) := by
  unfold applyActiveModule
  apply foldAttrs_good
  obtain ⟨hg, hc, hi⟩ := h
  cases hcomp : am.data_center_component with
  | none => exact ⟨hg, hc, hi⟩
  | some cid =>
      by_cases hmem : natMem res.component_values cid = true
      · simpa [hmem] using ⟨hg, hc, hi⟩
      · simp only [hmem, Bool.false_eq_true, if_neg, if_false]
        refine ⟨hg, ?_, ?_⟩
        · show ((res.component_values ++ [(cid, ([] : List (String × Int)))]).map (·.1)).Nodup
          rw [List.map_append, List.nodup_append]
          refine ⟨hc, by simp, ?_⟩
          intro a ha
          simp only [List.map_cons, List.map_nil, List.mem_singleton]
          intro hcontra
          rw [hcontra] at ha
          exact hmem ((natMem_iff _ _).mpr ha)
        · intro q hq
          rcases List.mem_append.mp hq with h | h
          · exact hi q h
          · simp only [List.mem_singleton] at h
            rw [h]
            simp

theorem calcResults_good (ams : List ActiveModule) : goodRes (calcResults ams) := by
  unfold calcResults
  have init : goodRes { global_values := [], component_values := [] } := by
    refine ⟨by simp, by simp, by simp⟩
  generalize hres : ({ global_values := [], component_values := [] } : CalcResults) = res
  rw [hres] at init
  clear hres
  induction ams generalizing res with
  | nil => exact init
  | cons am rest ih => exact ih _ (applyActiveModule_good res am init)

/-! ## Fold lemmas for the persistence step -/

theorem findComponent?_congr (d1 d2 : DB) (cid : Nat) (h : d1.components = d2.components) :
    findComponent? d1 cid = findComponent? d2 cid := by
  unfold findComponent?
  rw [h]

theorem persistUnits_tables (db : DB) (kf : String → VKey) (units : List (String × Int)) :
    (persistUnits db kf units).components = db.components ∧
    (persistUnits db kf units).active_modules = db.active_modules ∧
    (persistUnits db kf units).modules = db.modules ∧
    (persistUnits db kf units).data_centers = db.data_centers := by
  induction units generalizing db with
  | nil => exact ⟨rfl, rfl, rfl, rfl⟩
  | cons p rest ih =>
      have h1 := persistKey_tables db (kf p.1) p.2
      have h2 := ih (persistKey db (kf p.1) p.2)
      exact ⟨h2.1.trans h1.1, h2.2.1.trans h1.2.1, h2.2.2.1.trans h1.2.2.1,
        h2.2.2.2.trans h1.2.2.2⟩

theorem persistUnits_wf (db : DB) (kf : String → VKey) (units : List (String × Int))
    (hwf : wfValues db) : wfValues (persistUnits db kf units) := by
  induction units generalizing db with
  | nil => exact hwf
  | cons p rest ih => exact ih _ (persistKey_wf db (kf p.1) p.2 hwf)

theorem persistUnits_frame (db : DB) (kf : String → VKey) (units : List (String × Int))
    (k : VKey) (h : ∀ p ∈ units, kf p.1 ≠ k) :
    getRows (persistUnits db kf units).values k = getRows db.values k := by
  induction units generalizing db with
  | nil => rfl
  | cons p rest ih =>
      have step : getRows (persistKey db (kf p.1) p.2).values k = getRows db.values k :=
        persistKey_frame db (kf p.1) p.2 k (Ne.symm (h p (List.mem_cons_self p rest)))
      calc getRows (persistUnits (persistKey db (kf p.1) p.2) kf rest).values k
          = getRows (persistKey db (kf p.1) p.2).values k :=
            ih _ (fun q hq => h q (List.mem_cons_of_mem p hq))
        _ = getRows db.values k := step

theorem persistUnits_written (db : DB) (kf : String → VKey) (units : List (String × Int))
    (u : String) (v : Int) (hinj : Function.Injective kf) (hwf : wfValues db)
    (hkeys : (units.map (·.1)).Nodup) (hmem : (u, v) ∈ units) :
    ∃ r, getRows (persistUnits db kf units).values (kf u) = [r] ∧ r.value = v := by
  induction units generalizing db with
  | nil => simp at hmem
  | cons p rest ih =>
      rw [List.map_cons, List.nodup_cons] at hkeys
      rcases List.mem_cons.mp hmem with h | h
      · subst h
        obtain ⟨r, hr, hv⟩ := persistKey_written db (kf u) v hwf.1
        refine ⟨r, ?_, hv⟩
        have hframe : ∀ q ∈ rest, kf q.1 ≠ kf u := by
          intro q hq hcontra
          exact hkeys.1 ((hinj hcontra) ▸ List.mem_map_of_mem (·.1) hq)
        calc getRows (persistUnits (persistKey db (kf u) v) kf rest).values (kf u)
            = getRows (persistKey db (kf u) v).values (kf u) :=
              persistUnits_frame _ kf rest (kf u) hframe
          _ = [r] := hr
      · exact ih _ (persistKey_wf db (kf p.1) p.2 hwf) hkeys.2 h

theorem persistComponents_tables (db : DB) (dcId : Nat)
    (cs : List (Nat × List (String × Int))) :
    (persistComponents db dcId cs).components = db.components ∧
    (persistComponents db dcId cs).active_modules = db.active_modules ∧
    (persistComponents db dcId cs).modules = db.modules ∧
    (persistComponents db dcId cs).data_centers = db.data_centers := by
  induction cs generalizing db with
  | nil => exact ⟨rfl, rfl, rfl, rfl⟩
  | cons p rest ih =>
      rw [show persistComponents db dcId (p :: rest)
          = persistComponents (match findComponent? db p.1 with
              | none => db
              | some _ => persistComponentUnits db dcId p.1 p.2) dcId rest from rfl]
      cases hfind : findComponent? db p.1 with
      | none => simpa [hfind] using ih db
      | some c =>
          have h1 : (persistComponentUnits db dcId p.1 p.2).components = db.components ∧
              (persistComponentUnits db dcId p.1 p.2).active_modules = db.active_modules ∧
              (persistComponentUnits db dcId p.1 p.2).modules = db.modules ∧
              (persistComponentUnits db dcId p.1 p.2).data_centers = db.data_centers :=
            persistUnits_tables db (fun u => (some dcId, some p.1, u)) p.2
          have h2 := ih (persistComponentUnits db dcId p.1 p.2)
          simp only [hfind]
          exact ⟨h2.1.trans h1.1, h2.2.1.trans h1.2.1, h2.2.2.1.trans h1.2.2.1,
            h2.2.2.2.trans h1.2.2.2⟩

theorem persistComponents_wf (db : DB) (dcId : Nat)
    (cs : List (Nat × List (String × Int))) (hwf : wfValues db) :
    wfValues (persistComponents db dcId cs) := by
  induction cs generalizing db with
  | nil => exact hwf
  | cons p rest ih =>
      rw [show persistComponents db dcId (p :: rest)
          = persistComponents (match findComponent? db p.1 with
              | none => db
              | some _ => persistComponentUnits db dcId p.1 p.2) dcId rest from rfl]
      cases hfind : findComponent? db p.1 with
      | none => simp only [hfind]; exact ih db hwf
      | some c => simp only [hfind]; exact ih _ (persistUnits_wf db _ p.2 hwf)

theorem persistComponents_frame (db : DB) (dcId : Nat)
    (cs : List (Nat × List (String × Int))) (k : VKey)
    (h : ∀ p ∈ cs, ∀ u, k ≠ (some dcId, some p.1, u)) :
    getRows (persistComponents db dcId cs).values k = getRows db.values k := by
  induction cs generalizing db with
  | nil => rfl
  | cons p rest ih =>
      rw [show persistComponents db dcId (p :: rest)
          = persistComponents (match findComponent? db p.1 with
              | none => db
              | some _ => persistComponentUnits db dcId p.1 p.2) dcId rest from rfl]
      cases hfind : findComponent? db p.1 with
      | none => simp only [hfind]; exact ih db (fun q hq => h q (List.mem_cons_of_mem p hq))
      | some c =>
          have step : getRows (persistComponentUnits db dcId p.1 p.2).values k
              = getRows db.values k :=
            persistUnits_frame db _ p.2 k
              (fun q _ => Ne.symm (h p (List.mem_cons_self p rest) q.1))
          simp only [hfind]
          rw [ih _ (fun q hq => h q (List.mem_cons_of_mem p hq)), step]

theorem persistComponents_written (db : DB) (dcId : Nat)
    (cs : List (Nat × List (String × Int))) (cid : Nat) (m : List (String × Int))
    (u : String) (v : Int) (hwf : wfValues db) (houter : (cs.map (·.1)).Nodup)
    (hcm : (cid, m) ∈ cs) (hfind : (findComponent? db cid).isSome = true)
    (hinner : (m.map (·.1)).Nodup) (hum : (u, v) ∈ m) :
    ∃ r, getRows (persistComponents db dcId cs).values (some dcId, some cid, u) = [r]
      ∧ r.value = v := by
  induction cs generalizing db with
  | nil => simp at hcm
  | cons p rest ih =>
      rw [List.map_cons, List.nodup_cons] at houter
      rw [show persistComponents db dcId (p :: rest)
          = persistComponents (match findComponent? db p.1 with
              | none => db
              | some _ => persistComponentUnits db dcId p.1 p.2) dcId rest from rfl]
      rcases List.mem_cons.mp hcm with h | h
      · have hp1 : p.1 = cid := by rw [← h]
        have hp2 : p.2 = m := by rw [← h]
        subst hp1
        subst hp2
        rcases Option.isSome_iff_exists.mp hfind with ⟨c, hc⟩
        rw [hc]
        have hinj : Function.Injective (fun u => ((some dcId, some p.1, u) : VKey)) := by
          intro a b hab
          simpa using hab
        obtain ⟨r, hr, hv⟩ :=
          persistUnits_written db (fun u => (some dcId, some p.1, u)) p.2 u v hinj hwf
            hinner hum
        refine ⟨r, ?_, hv⟩
        have hframe : ∀ q ∈ rest, ∀ u',
            ((some dcId, some p.1, u) : VKey) ≠ (some dcId, some q.1, u') := by
          intro q hq u' hcontra
          have : p.1 = q.1 := by
            have := congrArg (fun k => k.2.1) hcontra
            simpa using this
          exact houter.1 (this ▸ List.mem_map_of_mem (·.1) hq)
        calc getRows (persistComponents (persistComponentUnits db dcId p.1 p.2)
              dcId rest).values (some dcId, some p.1, u)
            = getRows (persistComponentUnits db dcId p.1 p.2).values
                (some dcId, some p.1, u) :=
              persistComponents_frame _ dcId rest _ hframe
          _ = [r] := hr
      · cases hfind2 : findComponent? db p.1 with
        | none => simp only [hfind2]; exact ih db hwf houter.2 h hfind
        | some c =>
            have hcomps : (persistComponentUnits db dcId p.1 p.2).components
                = db.components :=
              (persistUnits_tables db (fun u => (some dcId, some p.1, u)) p.2).1
            have hfind3 : (findComponent? (persistComponentUnits db dcId p.1 p.2)
                cid).isSome = true := by
              rw [findComponent?_congr _ db cid hcomps]
              exact hfind
            simp only [hfind2]
            exact ih _ (persistUnits_wf db _ p.2 hwf) houter.2 h hfind3

/-! ## The keys a recompute touches -/

/-- Whether a recompute of the given results touches the key
`(component-or-null copt, unit u)`, and with which freshly computed value:
for the global scope the unit must appear in the global dict; for a
component scope the component must still resolve, appear in the outer dict,
and its inner dict must hold the unit. -/
def touchedValue (db : DB) (res : CalcResults) (copt : Option Nat) (u : String) :
    Option Int :=
  match copt with
  | none =>
      if alistMem res.global_values u then some (alistGetD res.global_values u) else none
  | some cid =>
      if (findComponent? db cid).isSome && natMem res.component_values cid
          && alistMem (natGetD res.component_values cid) u then
        some (alistGetD (natGetD res.component_values cid) u)
      else none

/-- After a recompute, every touched key holds exactly one row, carrying the
freshly computed value. -/
theorem calc_written (db : DB) (ams : List ActiveModule) (dcId : Nat)
    (copt : Option Nat) (u : String) (v : Int) (hwf : wfValues db)
    (ht : touchedValue db (calcResults ams) copt u = some v) :
    ∃ r, getRows ((calculate_resource_usage db ams dcId).1.values)
      (some dcId, copt, u) = [r] ∧ r.value = v := by
  obtain ⟨hg, hcv, hinn⟩ := calcResults_good ams
  have hcalc : (calculate_resource_usage db ams dcId).1
      = persistComponents (persistGlobals db dcId (calcResults ams).global_values)
          dcId (calcResults ams).component_values := rfl
  cases copt with
  | none =>
      unfold touchedValue at ht
      by_cases hmem : alistMem (calcResults ams).global_values u = true
      · rw [if_pos hmem] at ht
        have hv : alistGetD (calcResults ams).global_values u = v := Option.some.inj ht
        rw [alistMem] at hmem
        rcases Option.isSome_iff_exists.mp hmem with ⟨v0, hv0⟩
        have hv0v : v0 = v := by
          rw [alistGetD, hv0] at hv
          simpa using hv
        subst hv0v
        have hmem2 : (u, v0) ∈ (calcResults ams).global_values :=
          alistGet?_mem _ _ _ hv0
        have hinj : Function.Injective (fun u => ((some dcId, none, u) : VKey)) := by
          intro a b hab
          simpa using hab
        obtain ⟨r, hr, hrv⟩ := persistUnits_written db
          (fun u => (some dcId, none, u)) (calcResults ams).global_values u v0
          hinj hwf hg hmem2
        refine ⟨r, ?_, hrv⟩
        rw [hcalc]
        have hframe : ∀ p ∈ (calcResults ams).component_values, ∀ u',
            ((some dcId, none, u) : VKey) ≠ (some dcId, some p.1, u') := by
          intro p _ u' hcontra
          have := congrArg (fun k => k.2.1) hcontra
          simp at this
        rw [persistComponents_frame _ dcId _ _ hframe]
        exact hr
      · rw [if_neg hmem] at ht
        exact absurd ht (by simp)
  | some cid =>
      simp only [touchedValue] at ht
      by_cases hcond : ((findComponent? db cid).isSome
          && natMem (calcResults ams).component_values cid
          && alistMem (natGetD (calcResults ams).component_values cid) u) = true
      · rw [if_pos hcond] at ht
        have hv : alistGetD (natGetD (calcResults ams).component_values cid) u = v :=
          Option.some.inj ht
        rw [Bool.and_assoc, Bool.and_eq_true] at hcond
        obtain ⟨hfind, hrest⟩ := hcond
        rw [Bool.and_eq_true] at hrest
        obtain ⟨hnmem, hamem⟩ := hrest
        rw [natMem] at hnmem
        rcases Option.isSome_iff_exists.mp hnmem with ⟨m, hm⟩
        have hmD : natGetD (calcResults ams).component_values cid = m := by
          rw [natGetD, hm]
          rfl
        rw [hmD] at hv hamem
        rw [alistMem] at hamem
        rcases Option.isSome_iff_exists.mp hamem with ⟨v0, hv0⟩
        have hv0v : v0 = v := by
          rw [alistGetD, hv0] at hv
          simpa using hv
        subst hv0v
        have hum : (u, v0) ∈ m := alistGet?_mem _ _ _ hv0
        have hcm : (cid, m) ∈ (calcResults ams).component_values := natGet?_mem _ _ _ hm
        have hinner : (m.map (·.1)).Nodup := hinn (cid, m) hcm
        have hwf1 : wfValues (persistGlobals db dcId (calcResults ams).global_values) :=
          persistUnits_wf db _ _ hwf
        have hcomps : (persistGlobals db dcId (calcResults ams).global_values).components
            = db.components :=
          (persistUnits_tables db _ _).1
        have hfind1 : (findComponent? (persistGlobals db dcId
            (calcResults ams).global_values) cid).isSome = true := by
          rw [findComponent?_congr _ db cid hcomps]
          exact hfind
        rw [hcalc]
        exact persistComponents_written _ dcId _ cid m u v0 hwf1 hcv hcm hfind1
          hinner hum
      · rw [if_neg hcond] at ht
        exact absurd ht (by simp)

/-! ## Recompute writes are idempotent on already-fresh rows -/

theorem touched_global_of_mem (db : DB) (res : CalcResults) (u : String) (v : Int)
    (hg : (res.global_values.map (·.1)).Nodup) (hmem : (u, v) ∈ res.global_values) :
    touchedValue db res none u = some v := by
  have h := alist_mem_get? _ _ _ hg hmem
  simp [touchedValue, alistMem, alistGetD, h]

theorem touched_comp_of_mem (db : DB) (res : CalcResults) (cid : Nat)
    (m : List (String × Int)) (u : String) (v : Int)
    (hcv : (res.component_values.map (·.1)).Nodup) (hinner : (m.map (·.1)).Nodup)
    (hfind : (findComponent? db cid).isSome = true)
    (hcm : (cid, m) ∈ res.component_values) (hum : (u, v) ∈ m) :
    touchedValue db res (some cid) u = some v := by
  have h1 := nat_mem_get? _ _ _ hcv hcm
  have h2 := alist_mem_get? _ _ _ hinner hum
  simp [touchedValue, natMem, natGetD, alistMem, alistGetD, h1, h2, hfind]

theorem persistUnits_id (db : DB) (kf : String → VKey) (units : List (String × Int))
    (h : ∀ p ∈ units, ∃ r, getRows db.values (kf p.1) = [r] ∧ r.value = p.2) :
    persistUnits db kf units = db := by
  induction units with
  | nil => rfl
  | cons p rest ih =>
      obtain ⟨r, hr, hv⟩ := h p (List.mem_cons_self p rest)
      have hk : persistKey db (kf p.1) p.2 = db := persistKey_id db (kf p.1) p.2 r hr hv
      show persistUnits (persistKey db (kf p.1) p.2) kf rest = db
      rw [hk]
      exact ih (fun q hq => h q (List.mem_cons_of_mem p hq))

theorem persistComponents_id (db : DB) (dcId : Nat) (cs : List (Nat × List (String × Int)))
    (h : ∀ p ∈ cs, (findComponent? db p.1).isSome = true →
      ∀ q ∈ p.2, ∃ r, getRows db.values (some dcId, some p.1, q.1) = [r] ∧ r.value = q.2) :
    persistComponents db dcId cs = db := by
  induction cs with
  | nil => rfl
  | cons p rest ih =>
      rw [show persistComponents db dcId (p :: rest)
          = persistComponents (match findComponent? db p.1 with
              | none => db
              | some _ => persistComponentUnits db dcId p.1 p.2) dcId rest from rfl]
      cases hfind : findComponent? db p.1 with
      | none =>
          simp only [hfind]
          exact ih (fun q hq => h q (List.mem_cons_of_mem p hq))
      | some c =>
          have hstep : persistComponentUnits db dcId p.1 p.2 = db :=
            persistUnits_id db _ p.2
              (h p (List.mem_cons_self p rest) (by rw [hfind]; rfl))
          simp only [hfind, hstep]
          exact ih (fun q hq => h q (List.mem_cons_of_mem p hq))

theorem calc_tables (db : DB) (ams : List ActiveModule) (dcId : Nat) :
    ((calculate_resource_usage db ams dcId).1).components = db.components ∧
    ((calculate_resource_usage db ams dcId).1).active_modules = db.active_modules ∧
    ((calculate_resource_usage db ams dcId).1).modules = db.modules ∧
    ((calculate_resource_usage db ams dcId).1).data_centers = db.data_centers := by
  have h1 := persistUnits_tables db (fun u => (some dcId, none, u))
    (calcResults ams).global_values
  have h2 := persistComponents_tables
    (persistGlobals db dcId (calcResults ams).global_values) dcId
    (calcResults ams).component_values
  exact ⟨h2.1.trans h1.1, h2.2.1.trans h1.2.1, h2.2.2.1.trans h1.2.2.1,
    h2.2.2.2.trans h1.2.2.2⟩

theorem calc_wf (db : DB) (ams : List ActiveModule) (dcId : Nat) (hwf : wfValues db) :
    wfValues ((calculate_resource_usage db ams dcId).1) :=
  persistComponents_wf _ _ _ (persistUnits_wf db _ _ hwf)

theorem calculate_twice (db : DB) (ams : List ActiveModule) (dcId : Nat)
    (hwf : wfValues db) :
    (calculate_resource_usage ((calculate_resource_usage db ams dcId).1) ams dcId).1
      = (calculate_resource_usage db ams dcId).1 := by
  obtain ⟨hg, hcv, hinn⟩ := calcResults_good ams
  have hcompeq : ((calculate_resource_usage db ams dcId).1).components = db.components :=
    (calc_tables db ams dcId).1
  have hA : persistGlobals ((calculate_resource_usage db ams dcId).1) dcId
      (calcResults ams).global_values = (calculate_resource_usage db ams dcId).1 := by
    apply persistUnits_id
    intro p hp
    exact calc_written db ams dcId none p.1 p.2 hwf
      (touched_global_of_mem db _ p.1 p.2 hg hp)
  have hB : persistComponents ((calculate_resource_usage db ams dcId).1) dcId
      (calcResults ams).component_values = (calculate_resource_usage db ams dcId).1 := by
    apply persistComponents_id
    intro p hp hfind1 q hq
    have hfind0 : (findComponent? db p.1).isSome = true := by
      rw [← findComponent?_congr _ db p.1 hcompeq]
      exact hfind1
    exact calc_written db ams dcId (some p.1) q.1 q.2 hwf
      (touched_comp_of_mem db _ p.1 p.2 q.1 q.2 hcv (hinn p hp) hfind0 hp hq)
  show persistComponents (persistGlobals ((calculate_resource_usage db ams dcId).1) dcId
      (calcResults ams).global_values) dcId (calcResults ams).component_values
    = (calculate_resource_usage db ams dcId).1
  rw [hA, hB]

theorem select_eq (db1 db : DB) (dcId : Nat) (hc : db1.components = db.components)
    (ha : db1.active_modules = db.active_modules) :
    selectActiveModules db1 dcId = selectActiveModules db dcId := by
  unfold selectActiveModules effectiveMatch componentInDC findComponent?
  simp only [hc, ha]

/-! ## The aggregation loop computes a signed sum -/

/-- The contribution of an attribute list to unit `U`, signed the way the
loop body signs it. -/
def attrSum (attrs : List ModuleAttribute) (U : String) : Int :=
  (attrs.map (fun a => if a.unit = U then dirDelta a else 0)).sum

/-- The signed sum over a set of placements for unit `U`, with the loop's
signing. -/
def signedSum (ams : List ActiveModule) (U : String) : Int :=
  (ams.map (fun am => attrSum am.module.attributes U)).sum

theorem applyAttrGlobal_getD (g : List (String × Int)) (a : ModuleAttribute) (U : String) :
    alistGetD (applyAttrGlobal g a) U
      = alistGetD g U + (if a.unit = U then dirDelta a else 0) := by
  unfold applyAttrGlobal
  by_cases h : a.unit = U
  · subst h; simp [alistGetD_set_eq]
  · simp [alistGetD_set_ne g a.unit U _ (fun hh => h hh.symm), h]

theorem applyAttr_global (res : CalcResults) (comp : Option Nat) (a : ModuleAttribute) :
    (applyAttr res comp a).global_values = applyAttrGlobal res.global_values a := by
  cases comp <;> rfl

theorem foldAttrs_global (attrs : List ModuleAttribute) (comp : Option Nat)
    (res : CalcResults) (U : String) :
    alistGetD ((attrs.foldl (fun r a => applyAttr r comp a) res).global_values) U
      = alistGetD res.global_values U + attrSum attrs U := by
  induction attrs generalizing res with
  | nil => simp [attrSum]
  | cons a rest ih =>
      rw [List.foldl_cons, ih, applyAttr_global, applyAttrGlobal_getD]
      simp [attrSum]
      ring

theorem applyActiveModule_global (res : CalcResults) (am : ActiveModule) (U : String) :
    alistGetD ((applyActiveModule res am).global_values) U
      = alistGetD res.global_values U + attrSum am.module.attributes U := by
  unfold applyActiveModule
  cases h : am.data_center_component with
  | none => rw [foldAttrs_global]
  | some cid =>
      by_cases hmem : natMem res.component_values cid = true <;>
        simp only [hmem, if_pos, if_neg, Bool.false_eq_true, not_false_eq_true] <;>
        rw [foldAttrs_global]

theorem foldAM_global (ams : List ActiveModule) (res : CalcResults) (U : String) :
    alistGetD ((ams.foldl applyActiveModule res).global_values) U
      = alistGetD res.global_values U + signedSum ams U := by
  induction ams generalizing res with
  | nil => simp [signedSum]
  | cons am rest ih =>
      rw [List.foldl_cons, ih, applyActiveModule_global]
      simp [signedSum]
      ring

/-- The central conservation lemma: the global total the aggregation loop
computes for a unit is the signed sum of the selected placements'
attribute contributions. -/
theorem calc_global_eq_signedSum (ams : List ActiveModule) (U : String) :
    alistGetD (calcResults ams).global_values U = signedSum ams U := by
  unfold calcResults
  rw [foldAM_global]
  simp [alistGetD, alistGet?]

/-! ## Claim C1 -/

/-- The signed amount of an attribute as the specification words it:
plus `amount` for an Output attribute, minus `amount` for an Input one. -/
def claimSign (a : ModuleAttribute) : Int :=
  (if a.is_output then a.amount else 0) - (if a.is_input then a.amount else 0)

/-- The specification's signed sum over placements and attributes of unit `U`. -/
def specSignedSum (ams : List ActiveModule) (U : String) : Int :=
  (ams.map (fun am =>
    (am.module.attributes.map (fun a => if a.unit = U then claimSign a else 0)).sum)).sum

theorem dirDelta_eq_claimSign (a : ModuleAttribute)
    (h : ¬(a.is_input = true ∧ a.is_output = true)) : dirDelta a = claimSign a := by
  unfold dirDelta claimSign
  cases hi : a.is_input <;> cases ho : a.is_output <;> simp_all

theorem signedSum_eq_specSignedSum (ams : List ActiveModule) (U : String)
    (h : ∀ am ∈ ams, ∀ a ∈ am.module.attributes, ¬(a.is_input = true ∧ a.is_output = true)) :
    signedSum ams U = specSignedSum ams U := by
  unfold signedSum specSignedSum attrSum
  congr 1
  apply List.map_congr_left
  intro am ham
  congr 1
  apply List.map_congr_left
  intro a ha
  by_cases hu : a.unit = U <;> simp [hu, dirDelta_eq_claimSign a (h am ham a ha)]

/-- C1 (confirmed): conservation of aggregation — for every data center and
every set of active placements handed to the recompute
(`calculate_resource_usage`), as long as each attribute has a well-defined
direction (not both flags set, matching the data-model's Input|Output
direction), the global total computed for a unit `U` equals the signed sum,
over all those placements and all attributes of their module with unit `U`,
of `+amount` for Output attributes and `-amount` for Input attributes. -/
theorem conservation_of_aggregation (db : DB) (dcId : Nat) (ams : List ActiveModule)
    (U : String)
    (hdir : ∀ am ∈ ams, ∀ a ∈ am.module.attributes,
      ¬(a.is_input = true ∧ a.is_output = true)) :
    alistGetD ((calculate_resource_usage db ams dcId).2.global_values) U
      = specSignedSum ams U := by
  have h2 : (calculate_resource_usage db ams dcId).2 = calcResults ams := rfl
  rw [h2, calc_global_eq_signedSum, signedSum_eq_specSignedSum ams U hdir]

/-- A concrete placement for the C1 witness: a PSU producing 1000 Power and
consuming 10 Space_X. -/
def c1_am : ActiveModule :=
  ⟨1, ⟨1, "PSU", [⟨"Power", 1000, false, true⟩, ⟨"Space_X", 10, true, false⟩]⟩,
    none, some 1, 0, 0⟩

/-- A base database used by concrete witnesses. -/
def baseDB : DB :=
  { modules := [], components := [], data_centers := [⟨1, "D1", 100, 100⟩],
    active_modules := [], values := [], next_value_id := 0,
    next_active_id := 1, next_dc_id := 2, space_x_initial := 8000,
    space_y_initial := 3000 }

theorem conservation_of_aggregation_witness :
    alistGetD ((calculate_resource_usage baseDB [c1_am, c1_am] 1).2.global_values) "Power"
      = specSignedSum [c1_am, c1_am] "Power" :=
  conservation_of_aggregation baseDB 1 [c1_am, c1_am] "Power" (by decide)

/-! ## Claim C2 -/

/-- The combined (unsigned) attribute amount carried for unit `U` by a set
of placements — the "combined Space_X attribute S" of the claim. -/
def combinedAmount (ams : List ActiveModule) (U : String) : Int :=
  (ams.map (fun am =>
    (am.module.attributes.map (fun a => if a.unit = U then a.amount else 0)).sum)).sum

/-- A placement whose module carries a Space_X attribute flagged as input. -/
def c2_am : ActiveModule :=
  ⟨1, ⟨1, "M", [⟨"Space_X", 10, true, false⟩]⟩, none, some 1, 0, 0⟩

/-- C2 (counterexample): the aggregation loop has no special case for the
reserved space units — a Space_X attribute flagged is_input is subtracted,
so the computed Space_X total is -10 for a placement whose combined Space_X
amount is 10, contradicting direction-independent pure-consumption
accumulation. -/
theorem space_direction_counterexample :
    combinedAmount [c2_am] "Space_X" = 10 ∧
    alistGetD ((calculate_resource_usage baseDB [c2_am] 1).2.global_values) "Space_X"
      ≠ combinedAmount [c2_am] "Space_X" := by
  constructor
  · decide
  · decide

/-- C2 (amended): space units are accumulated exactly like every other
unit, signed by the direction flags; the computed used Space_X equals the
combined Space_X amount S only under the proviso that every Space_X
attribute of the placed modules is flagged as output (and not input) —
and likewise for Space_Y. -/
theorem space_accumulation_when_output (db : DB) (dcId : Nat) (ams : List ActiveModule)
    (U : String) (_hU : U = "Space_X" ∨ U = "Space_Y")
    (hout : ∀ am ∈ ams, ∀ a ∈ am.module.attributes,
      a.unit = U → (a.is_output = true ∧ a.is_input = false)) :
    alistGetD ((calculate_resource_usage db ams dcId).2.global_values) U
      = combinedAmount ams U := by
  have h2 : (calculate_resource_usage db ams dcId).2 = calcResults ams := rfl
  rw [h2, calc_global_eq_signedSum]
  unfold signedSum combinedAmount attrSum
  congr 1
  apply List.map_congr_left
  intro am ham
  congr 1
  apply List.map_congr_left
  intro a ha
  by_cases hu : a.unit = U
  · obtain ⟨ho, hi⟩ := hout am ham a ha hu
    simp [hu, dirDelta, ho, hi]
  · simp [hu]

theorem space_accumulation_when_output_witness :
    alistGetD ((calculate_resource_usage baseDB
        [⟨1, ⟨1, "M", [⟨"Space_X", 10, false, true⟩]⟩, none, some 1, 0, 0⟩] 1).2.global_values)
        "Space_X"
      = combinedAmount [⟨1, ⟨1, "M", [⟨"Space_X", 10, false, true⟩]⟩, none, some 1, 0, 0⟩]
          "Space_X" :=
  space_accumulation_when_output baseDB 1 _ "Space_X" (Or.inl rfl) (by decide)

/-! ## Claim C5 -/

/-- C5 (confirmed): for a specification that validation actually checks
(not unconstrained, amount not -1, unit not a space unit), the compared
value is the component's own dict entry for the unit with default 0 (the
dict `checkAttr` receives is, by `checkComponent`, exactly the component's
own map — it is never handed global or cross-component values), and,
starting from a clean state, the check reports a violation and sets
passed to False exactly when a truthy below_amount has current > amount or
a truthy above_amount has current < amount. -/
theorem validation_threshold_check (dc : DataCenter) (compName : String)
    (compVals : List (String × Int)) (attr : ComponentAttribute)
    (h1 : attr.unconstrained = 0) (h2 : attr.amount ≠ -1)
    (h3 : attr.unit ≠ "Space_X") (h4 : attr.unit ≠ "Space_Y") :
    (((checkAttr dc compName compVals ⟨true, []⟩ attr).passed = false) ↔
      ((attr.below_amount ≠ 0 ∧ alistGetD compVals attr.unit > attr.amount) ∨
       (attr.above_amount ≠ 0 ∧ alistGetD compVals attr.unit < attr.amount))) ∧
    (((checkAttr dc compName compVals ⟨true, []⟩ attr).violations ≠ []) ↔
      ((attr.below_amount ≠ 0 ∧ alistGetD compVals attr.unit > attr.amount) ∨
       (attr.above_amount ≠ 0 ∧ alistGetD compVals attr.unit < attr.amount))) := by
  have hskip : ¬(attr.unconstrained ≠ 0 ∨ attr.amount = -1) := by
    simp [h1, h2]
  have hspace : ¬(attr.unit = "Space_X" ∨ attr.unit = "Space_Y") := by
    simp [h3, h4]
  unfold checkAttr
  rw [if_neg hskip, if_neg hspace]
  split_ifs with hb ha ha <;> simp_all [violSet]

/-- A specification used by the C5 witness: Power must stay at or below 10. -/
def c5_attr : ComponentAttribute := ⟨1, 0, 0, 0, 0, "Power", 10⟩

theorem validation_threshold_check_witness :
    (((checkAttr ⟨1, "D1", 100, 100⟩ "Rack" [("Power", 50)] ⟨true, []⟩ c5_attr).passed = false) ↔
      ((c5_attr.below_amount ≠ 0 ∧ alistGetD [("Power", 50)] c5_attr.unit > c5_attr.amount) ∨
       (c5_attr.above_amount ≠ 0 ∧ alistGetD [("Power", 50)] c5_attr.unit < c5_attr.amount))) ∧
    (((checkAttr ⟨1, "D1", 100, 100⟩ "Rack" [("Power", 50)] ⟨true, []⟩ c5_attr).violations ≠ []) ↔
      ((c5_attr.below_amount ≠ 0 ∧ alistGetD [("Power", 50)] c5_attr.unit > c5_attr.amount) ∨
       (c5_attr.above_amount ≠ 0 ∧ alistGetD [("Power", 50)] c5_attr.unit < c5_attr.amount))) :=
  validation_threshold_check ⟨1, "D1", 100, 100⟩ "Rack" [("Power", 50)] c5_attr
    (by decide) (by decide) (by decide) (by decide)

/-! ## Claim C6 -/

/-- A module producing 120 Power, for the C6 counterexample. -/
def c6_module : Module := ⟨1, "PSU", [⟨"Power", 120, false, true⟩]⟩

/-- Two placed PSUs with the value store already reflecting their total. -/
def c6_db : DB :=
  { baseDB with
      active_modules := [⟨1, c6_module, none, some 1, 0, 0⟩, ⟨2, c6_module, none, some 1, 1, 1⟩]
      values := [⟨0, "Power", 240, none, some 1⟩] }

/-- C6 (counterexample): deleting placement 2 through the delete endpoint
reports success (HTTP 200) but leaves the persisted Power row at 240, while
a recompute over the one remaining placement would yield 120 — the
persisted rows do not equal the totals recomputed over the remaining
placements. -/
theorem removal_counterexample :
    (destroy c6_db 2).2 = 200 ∧
    (destroy c6_db 2).1.values = [⟨0, "Power", 240, none, some 1⟩] ∧
    alistGetD (calcResults (selectActiveModules (destroy c6_db 2).1 1)).global_values "Power"
      = 120 := by
  refine ⟨by decide, by decide, by decide⟩

/-- C6 (amended): removal of a placement (through the service or the delete
endpoint) deletes the placement but triggers no re-aggregation — the
persisted ResourceValue rows after the removal are exactly the rows from
before it; they reflect the remaining placements only after some later
operation recomputes. -/
theorem removal_no_reaggregation (db : DB) (amId : Nat) :
    (destroy db amId).1.values = db.values ∧
    (delete_active_module db amId).1.values = db.values := by
  constructor
  · unfold destroy
    cases h : db.active_modules.find? (fun am => am.id = amId) with
    | none => rfl
    | some am =>
        have ham : am.id = amId := by
          have := List.find?_some h
          simpa using this
        simp only []
        unfold delete_active_module
        rw [ham, h]
  · unfold delete_active_module
    cases h : db.active_modules.find? (fun am => am.id = amId) <;> rfl

/-! ## Claim C7 -/

/-- C7 (code bug): calling the removal service with an id that refers to no
existing placement returns an ordinary False — the
`ActiveModule.DoesNotExist` exception is caught inside the function, so no
NotFound signal reaches the caller, contradicting the function's own
docstring ("Raises: ActiveModule.DoesNotExist") and the specification. -/
theorem delete_absent_returns_false :
    delete_active_module baseDB 1 = (baseDB, PyResult.ok false) := by
  decide

/-! ## Claim C3 -/

/-- A component with one Power specification, for the C3 counterexample. -/
def c3_comp : DataCenterComponent := ⟨1, "Rack", some 1, [⟨0, 0, 0, 0, 0, "Power", 10⟩]⟩

/-- A database in which the (data center 1, component 1, Power) row already
exists with value 5. -/
def c3_db : DB :=
  { baseDB with components := [c3_comp], values := [⟨0, "Power", 5, some 1, some 1⟩] }

/-- C3 (counterexample): initialization is destructive — the existing
ResourceValue row for (data center 1, component 1, Power) holds 5
beforehand, and the initialize pass overwrites its value to 0, so
initialization does change the value of an already-existing row. -/
theorem initialize_overwrites_counterexample :
    c3_db.values = [⟨0, "Power", 5, some 1, some 1⟩] ∧
    (initialize_values_from_components c3_db 1).values = [⟨0, "Power", 0, some 1, some 1⟩] := by
  refine ⟨by decide, by decide⟩

/-! ## Claim C4 -/

/-- C4 (confirmed): duplicate-row healing — for every key the recompute
touches (global or component-scoped), whatever number of rows ≥ 2 existed
for that key beforehand, after `calculate_resource_usage` exactly one row
exists for the key and its value is the freshly computed total; the extra
rows are deleted.  The embedded function is total, mirroring the code path
that recovers from the inconsistency without raising. -/
theorem duplicate_row_healing (db : DB) (ams : List ActiveModule) (dcId : Nat)
    (copt : Option Nat) (u : String) (v : Int) (hwf : wfValues db)
    (ht : touchedValue db (calcResults ams) copt u = some v)
    (_hdup : 2 ≤ (getRows db.values (some dcId, copt, u)).length) :
    ∃ r, getRows ((calculate_resource_usage db ams dcId).1.values)
      (some dcId, copt, u) = [r] ∧ r.value = v :=
  calc_written db ams dcId copt u v hwf ht

/-- A placement producing 100 Power, for the C4 witness. -/
def c4_am : ActiveModule :=
  ⟨1, ⟨1, "PSU", [⟨"Power", 100, false, true⟩]⟩, none, some 1, 0, 0⟩

/-- A database holding two conflicting rows for the same global Power key. -/
def c4_db : DB :=
  { baseDB with
      values := [⟨0, "Power", 7, none, some 1⟩, ⟨1, "Power", 9, none, some 1⟩]
      next_value_id := 2
      active_modules := [c4_am] }

theorem duplicate_row_healing_witness :
    ∃ r, getRows ((calculate_resource_usage c4_db [c4_am] 1).1.values)
      (some 1, none, "Power") = [r] ∧ r.value = 100 :=
  duplicate_row_healing c4_db [c4_am] 1 none "Power" 100 (by decide) (by decide)
    (by decide)

/-! ## Claim C8 -/

/-- C8 (confirmed): idempotence of recompute — on a well-formed database
(distinct row primary keys below the autoincrement counter), running
`force_recalculate_values` twice in a row with no intervening change leaves
the database, and in particular every persisted ResourceValue row, exactly
as the first run left it. -/
theorem recompute_idempotent (db : DB) (dcId : Nat) (hwf : wfValues db) :
    (force_recalculate_values (force_recalculate_values db dcId).1 dcId).1
      = (force_recalculate_values db dcId).1 := by
  have h1 : (force_recalculate_values db dcId).1
      = (calculate_resource_usage db (selectActiveModules db dcId) dcId).1 := rfl
  have hcompeq : ((calculate_resource_usage db (selectActiveModules db dcId) dcId).1).components
      = db.components := (calc_tables db _ dcId).1
  have hameq : ((calculate_resource_usage db (selectActiveModules db dcId) dcId).1).active_modules
      = db.active_modules := (calc_tables db _ dcId).2.1
  have hsel : selectActiveModules
      ((calculate_resource_usage db (selectActiveModules db dcId) dcId).1) dcId
      = selectActiveModules db dcId :=
    select_eq _ db dcId hcompeq hameq
  have h2 : (force_recalculate_values
      ((calculate_resource_usage db (selectActiveModules db dcId) dcId).1) dcId).1
      = (calculate_resource_usage
          ((calculate_resource_usage db (selectActiveModules db dcId) dcId).1)
          (selectActiveModules
            ((calculate_resource_usage db (selectActiveModules db dcId) dcId).1) dcId)
          dcId).1 := rfl
  rw [h1, h2, hsel, calculate_twice db (selectActiveModules db dcId) dcId hwf]

/-- A database with one placement and a stale pre-existing row, for the C8
witness. -/
def c8_db : DB :=
  { baseDB with
      values := [⟨0, "Power", 55, none, some 1⟩]
      next_value_id := 1
      active_modules := [⟨1, ⟨1, "PSU", [⟨"Power", 100, false, true⟩]⟩, none, some 1, 0, 0⟩] }

theorem recompute_idempotent_witness :
    (force_recalculate_values (force_recalculate_values c8_db 1).1 1).1
      = (force_recalculate_values c8_db 1).1 :=
  recompute_idempotent c8_db 1 (by decide)

/-! ## Claim C9 -/

theorem natGetD_set_eq (m : List (Nat × List (String × Int))) (k : Nat)
    (v : List (String × Int)) : natGetD (natSet m k v) k = v := by
  simp [natGetD, natGet?_set_eq]

theorem natGetD_set_ne (m : List (Nat × List (String × Int))) (k k' : Nat)
    (v : List (String × Int)) (h : k' ≠ k) : natGetD (natSet m k v) k' = natGetD m k' := by
  simp [natGetD, natGet?_set_ne m k k' v h]

theorem readCompStep_get (m : List (Nat × List (String × Int))) (v : DataCenterValue)
    (cid : Nat) (u : String) :
    alistGet? (natGetD (readCompStep m v) cid) u
      = if v.component = some cid ∧ v.unit = u then some v.value
        else alistGet? (natGetD m cid) u := by
  unfold readCompStep
  cases hcomp : v.component with
  | none => simp [hcomp]
  | some cid' =>
      by_cases hc : cid' = cid
      · subst hc
        rw [natGetD_set_eq]
        by_cases hu : v.unit = u
        · rw [hu, alistGet?_set_eq]
          simp [hcomp, hu]
        · rw [alistGet?_set_ne _ _ _ _ (fun hh => hu hh.symm)]
          simp [hcomp, hu]
      · rw [natGetD_set_ne _ _ _ _ (fun hh => hc hh.symm)]
        simp [hc]

/-- The value kept by a last-writer-wins scan of the rows for
`(component cid, unit u)`, starting from a default. -/
def lastVal (rows : List DataCenterValue) (cid : Nat) (u : String) (dflt : Option Int) :
    Option Int :=
  match rows with
  | [] => dflt
  | v :: rest =>
      lastVal rest cid u (if v.component = some cid ∧ v.unit = u then some v.value else dflt)

theorem readComp_fold (rows : List DataCenterValue)
    (acc : List (Nat × List (String × Int))) (cid : Nat) (u : String) :
    alistGet? (natGetD (rows.foldl readCompStep acc) cid) u
      = lastVal rows cid u (alistGet? (natGetD acc cid) u) := by
  induction rows generalizing acc with
  | nil => rfl
  | cons v rest ih =>
      rw [List.foldl_cons, ih, readCompStep_get]
      rfl

theorem lastVal_nomatch (rows : List DataCenterValue) (cid : Nat) (u : String)
    (dflt : Option Int)
    (h : rows.filter (fun v => v.component = some cid ∧ v.unit = u) = []) :
    lastVal rows cid u dflt = dflt := by
  induction rows generalizing dflt with
  | nil => rfl
  | cons v rest ih =>
      rw [List.filter_cons] at h
      by_cases hv : v.component = some cid ∧ v.unit = u
      · simp [hv] at h
      · simp only [hv, decide_eq_true_eq, if_neg, if_false, decide_False] at h
        simp [lastVal, hv, ih _ h]

theorem lastVal_single (rows : List DataCenterValue) (cid : Nat) (u : String)
    (r : DataCenterValue) (dflt : Option Int)
    (h : rows.filter (fun v => v.component = some cid ∧ v.unit = u) = [r]) :
    lastVal rows cid u dflt = some r.value := by
  induction rows generalizing dflt with
  | nil => simp at h
  | cons v rest ih =>
      rw [List.filter_cons] at h
      by_cases hv : v.component = some cid ∧ v.unit = u
      · simp only [hv, decide_True, if_pos] at h
        have hr : v = r := (List.cons_eq_cons.mp h).1
        have hrest : rest.filter (fun v => v.component = some cid ∧ v.unit = u) = [] :=
          (List.cons_eq_cons.mp h).2
        subst hr
        simp [lastVal, hv, lastVal_nomatch rest cid u _ hrest]
      · simp only [hv, decide_eq_true_eq, if_neg, if_false, decide_False] at h
        simp [lastVal, hv, ih _ h]

theorem filter_pair (vals : List DataCenterValue) (dcId cid : Nat) (u : String) :
    (vals.filter (fun v => v.data_center = some dcId ∧ v.component ≠ none)).filter
        (fun v => v.component = some cid ∧ v.unit = u)
      = getRows vals (some dcId, some cid, u) := by
  induction vals with
  | nil => rfl
  | cons v rest ih =>
      rw [getRows_cons, List.filter_cons]
      by_cases h1 : v.data_center = some dcId ∧ v.component ≠ none
      · rw [if_pos (by simpa using h1), List.filter_cons]
        by_cases h2 : v.component = some cid ∧ v.unit = u
        · rw [if_pos (by simpa using h2)]
          have hkey : rowKey v = ((some dcId, some cid, u) : VKey) := by
            show (v.data_center, v.component, v.unit) = _
            rw [h1.1, h2.1, h2.2]
          rw [if_pos hkey, ih]
        · rw [if_neg (by simpa using h2)]
          have hkey : ¬(rowKey v = ((some dcId, some cid, u) : VKey)) := by
            intro hk
            obtain ⟨e1, e2, e3⟩ : v.data_center = some dcId ∧ v.component = some cid
                ∧ v.unit = u := by
              simpa [rowKey, Prod.ext_iff] using hk
            exact h2 ⟨e2, e3⟩
          rw [if_neg hkey]
          exact ih
      · rw [if_neg (by simpa using h1)]
        have hkey : ¬(rowKey v = ((some dcId, some cid, u) : VKey)) := by
          intro hk
          obtain ⟨e1, e2, e3⟩ : v.data_center = some dcId ∧ v.component = some cid
              ∧ v.unit = u := by
            simpa [rowKey, Prod.ext_iff] using hk
          exact h1 ⟨e1, by rw [e2]; simp⟩
        rw [if_neg hkey]
        exact ih

/-- Reading the value store back: a key holding exactly one row reads back
as that row's value. -/
theorem read_component_single (vals : List DataCenterValue) (dcId cid : Nat) (u : String)
    (r : DataCenterValue) (h : getRows vals (some dcId, some cid, u) = [r]) :
    alistGetD (natGetD (readValues vals dcId).component_values cid) u = r.value := by
  have hrows : ((vals.filter (fun v => v.data_center = some dcId ∧ v.component ≠ none)).filter
      (fun v => v.component = some cid ∧ v.unit = u)) = [r] := by
    rw [filter_pair]
    exact h
  show alistGetD (natGetD ((vals.filter
    (fun v => v.data_center = some dcId ∧ v.component ≠ none)).foldl readCompStep [])
      cid) u = r.value
  rw [alistGetD, readComp_fold, lastVal_single _ _ _ _ _ hrows]
  rfl

/-- C9 (amended): validate first runs a full recompute (twice, once
directly and once inside force_recalculate_values) and evaluates
specifications against the value store as read back after those recomputes
— so for every key the current placements touch, the value validation
compares is the freshly computed total.  (Keys no placement touches keep
whatever the store already held, which is what the counterexample
exhibits.) -/
theorem validate_uses_fresh_totals (db : DB) (dc : DataCenter) (cid : Nat) (u : String)
    (v : Int) (hwf : wfValues db)
    (ht : touchedValue db (calcResults (selectActiveModules db dc.id)) (some cid) u
      = some v) :
    alistGetD (natGetD ((validate_calculated_values db dc).2).component_values cid) u
      = v := by
  obtain ⟨r, hr, hv⟩ := calc_written db (selectActiveModules db dc.id) dc.id
    (some cid) u v hwf ht
  have hcompeq : ((calculate_resource_usage db (selectActiveModules db dc.id) dc.id).1).components
      = db.components := (calc_tables db _ dc.id).1
  have hameq : ((calculate_resource_usage db (selectActiveModules db dc.id) dc.id).1).active_modules
      = db.active_modules := (calc_tables db _ dc.id).2.1
  have hsel : selectActiveModules
      ((calculate_resource_usage db (selectActiveModules db dc.id) dc.id).1) dc.id
      = selectActiveModules db dc.id :=
    select_eq _ db dc.id hcompeq hameq
  have hforce : (validate_calculated_values db dc).2
      = readValues ((calculate_resource_usage
          ((calculate_resource_usage db (selectActiveModules db dc.id) dc.id).1)
          (selectActiveModules
            ((calculate_resource_usage db (selectActiveModules db dc.id) dc.id).1) dc.id)
          dc.id).1).values dc.id := rfl
  rw [hforce, hsel, calculate_twice db (selectActiveModules db dc.id) dc.id hwf]
  rw [read_component_single _ dc.id cid u r hr]
  exact hv

/-- A component with a Below-10 Power specification, for the C9 theorems. -/
def c9_comp : DataCenterComponent := ⟨1, "Rack", some 1, [⟨1, 0, 0, 0, 0, "Power", 10⟩]⟩

/-- A data center record for the C9 theorems. -/
def c9_dc : DataCenter := ⟨1, "D1", 100, 100⟩

/-- No placements, but a stale component-scoped Power row of 50. -/
def c9_dbA : DB :=
  { baseDB with
      components := [c9_comp]
      values := [⟨0, "Power", 50, some 1, some 1⟩]
      next_value_id := 1 }

/-- The same database with an empty value store. -/
def c9_dbB : DB := { baseDB with components := [c9_comp] }

/-- C9 (counterexample): two databases with identical placements (none) and
identical components differ only in the value store's prior contents, yet
validate returns passed=False on the first and passed=True on the second —
the verdict does depend on the store's prior contents, because a recompute
only rewrites keys the current placements touch. -/
theorem validation_stale_counterexample :
    c9_dbA.active_modules = c9_dbB.active_modules ∧
    c9_dbA.components = c9_dbB.components ∧
    (validate_component_values c9_dbA none c9_dc).2.1 = false ∧
    (validate_component_values c9_dbB none c9_dc).2.1 = true := by
  refine ⟨by decide, by decide, by decide, by decide⟩

/-- A placement bound to component 1 producing 30 Power, for the C9 witness. -/
def c9_wdb : DB :=
  { baseDB with
      components := [c9_comp]
      active_modules := [⟨1, ⟨1, "PSU", [⟨"Power", 30, false, true⟩]⟩, some 1, some 1, 0, 0⟩] }

theorem validate_uses_fresh_totals_witness :
    alistGetD (natGetD ((validate_calculated_values c9_wdb c9_dc).2).component_values 1)
      "Power" = 30 :=
  validate_uses_fresh_totals c9_wdb c9_dc 1 "Power" 30 (by decide) (by decide)

/-! ## Claim C3, amended: initialization always writes zero -/

/-- Key uniqueness of the value store: the row keys are pairwise distinct
(the invariant §4.4 demands and the healing step restores). -/
def keyUnique (vals : List DataCenterValue) : Prop :=
  (vals.map rowKey).Nodup

instance (vals : List DataCenterValue) : Decidable (keyUnique vals) := by
  unfold keyUnique; infer_instance

theorem getRows_eq_nil (vals : List DataCenterValue) (k : VKey)
    (h : ∀ v ∈ vals, rowKey v ≠ k) : getRows vals k = [] := by
  rw [getRows, List.filter_eq_nil_iff]
  intro v hv
  simpa using h v hv

theorem keyUnique_getRows (vals : List DataCenterValue) (k : VKey)
    (hku : keyUnique vals) :
    getRows vals k = [] ∨ ∃ r, getRows vals k = [r] := by
  induction vals with
  | nil => exact Or.inl rfl
  | cons v rest ih =>
      rw [keyUnique, List.map_cons, List.nodup_cons] at hku
      rw [getRows_cons]
      by_cases h1 : rowKey v = k
      · rw [if_pos h1]
        have hrest : getRows rest k = [] := by
          apply getRows_eq_nil
          intro w hw hcontra
          exact hku.1 (h1 ▸ hcontra ▸ List.mem_map_of_mem rowKey hw)
        rw [hrest]
        exact Or.inr ⟨v, rfl⟩
      · rw [if_neg h1]
        exact ih hku.2

theorem initUpdate_rowKeys (vals : List DataCenterValue) (k : VKey) (rid : Nat) :
    (initUpdate vals k rid).map rowKey = vals.map rowKey := by
  induction vals with
  | nil => rfl
  | cons v rest ih =>
      by_cases h2 : v.id = rid
      · subst h2
        by_cases h1 : rowKey v = k
        · simp [initUpdate, h1, rowKey_setValue, ih]
        · simp [initUpdate, h1, ih]
      · have hcond : ¬(rowKey v = k ∧ v.id = rid) := fun hcontra => h2 hcontra.2
        simp [initUpdate, hcond, ih]

theorem initUpdate_frame (vals : List DataCenterValue) (k : VKey) (rid : Nat)
    (k' : VKey) (h : k' ≠ k) :
    getRows (initUpdate vals k rid) k' = getRows vals k' := by
  induction vals with
  | nil => rfl
  | cons v rest ih =>
      by_cases h2 : v.id = rid
      · subst h2
        by_cases h1 : rowKey v = k
        · have h1' : ¬(rowKey v = k') := by
            rw [h1]
            exact Ne.symm h
          simp [initUpdate, h1, getRows_cons, rowKey_setValue, h1', Ne.symm h, ih]
        · simp [initUpdate, h1, getRows_cons, ih]
      · have hcond : ¬(rowKey v = k ∧ v.id = rid) := fun hcontra => h2 hcontra.2
        simp [initUpdate, hcond, getRows_cons, ih]

theorem initUpdate_getRows (vals : List DataCenterValue) (k : VKey) (rid : Nat) :
    getRows (initUpdate vals k rid) k
      = (getRows vals k).map (fun v => if v.id = rid then { v with value := 0 } else v) := by
  induction vals with
  | nil => rfl
  | cons v rest ih =>
      by_cases h2 : v.id = rid
      · subst h2
        by_cases h1 : rowKey v = k
        · simp [initUpdate, h1, getRows_cons, rowKey_setValue, ih]
        · simp [initUpdate, h1, getRows_cons, ih]
      · have hcond : ¬(rowKey v = k ∧ v.id = rid) := fun hcontra => h2 hcontra.2
        by_cases h1 : rowKey v = k
        · simp [initUpdate, hcond, getRows_cons, h1, h2, ih]
        · simp [initUpdate, hcond, getRows_cons, h1, ih]

theorem initWrite_keyUnique (db : DB) (k : VKey) (hku : keyUnique db.values) :
    keyUnique (initWrite db k).values := by
  unfold initWrite
  split
  · next heq =>
      show keyUnique (db.values ++ [mkValue db.next_value_id k 0])
      rw [keyUnique, List.map_append, List.nodup_append]
      refine ⟨hku, by simp, ?_⟩
      intro a ha
      simp only [List.map_cons, List.map_nil, List.mem_singleton, rowKey_mkValue]
      intro hcontra
      rcases List.mem_map.mp ha with ⟨w, hw, hwa⟩
      have : w ∈ getRows db.values k := by
        rw [getRows, List.mem_filter]
        refine ⟨hw, by simp [hwa ▸ hcontra]⟩
      rw [heq] at this
      simp at this
  · next r rest heq =>
      show keyUnique (initUpdate db.values k r.id)
      rw [keyUnique, initUpdate_rowKeys]
      exact hku

theorem initWrite_frame (db : DB) (k : VKey) (k' : VKey) (h : k' ≠ k) :
    getRows (initWrite db k).values k' = getRows db.values k' := by
  unfold initWrite
  split
  · show getRows (db.values ++ [mkValue db.next_value_id k 0]) k' = getRows db.values k'
    rw [getRows_append, getRows_single, rowKey_mkValue, if_neg (Ne.symm h)]
    simp
  · exact initUpdate_frame db.values k _ k' h

theorem initWrite_written (db : DB) (k : VKey) (hku : keyUnique db.values) :
    ∃ r, getRows (initWrite db k).values k = [r] ∧ r.value = 0 := by
  unfold initWrite
  split
  · next heq =>
      refine ⟨mkValue db.next_value_id k 0, ?_, rfl⟩
      show getRows (db.values ++ [mkValue db.next_value_id k 0]) k = _
      rw [getRows_append, getRows_single, rowKey_mkValue, if_pos rfl, heq]
      rfl
  · next r rest heq =>
      have hsingle : getRows db.values k = [r] := by
        rcases keyUnique_getRows db.values k hku with h | ⟨w, hw⟩
        · rw [h] at heq
          exact absurd heq (by simp)
        · rw [hw] at heq
          rw [hw, (List.cons_eq_cons.mp heq.symm).1]
      refine ⟨{ r with value := 0 }, ?_, rfl⟩
      show getRows (initUpdate db.values k r.id) k = _
      rw [initUpdate_getRows, hsingle]
      simp

theorem initWrite_keeps (db : DB) (k k' : VKey) (hku : keyUnique db.values)
    (h : ∃ r, getRows db.values k = [r] ∧ r.value = 0) :
    ∃ r, getRows (initWrite db k').values k = [r] ∧ r.value = 0 := by
  by_cases hk : k = k'
  · subst hk
    exact initWrite_written db k hku
  · rw [initWrite_frame db k' k (fun hh => hk hh)]
    exact h

theorem initFoldUnits_keyUnique (us : List String) (kf : String → VKey) (db : DB)
    (hku : keyUnique db.values) :
    keyUnique ((us.foldl (fun d2 u => initWrite d2 (kf u)) db)).values := by
  induction us generalizing db with
  | nil => exact hku
  | cons u0 rest ih => exact ih _ (initWrite_keyUnique db (kf u0) hku)

theorem initFoldUnits_keeps (us : List String) (kf : String → VKey) (db : DB) (k : VKey)
    (hku : keyUnique db.values) (h : ∃ r, getRows db.values k = [r] ∧ r.value = 0) :
    ∃ r, getRows ((us.foldl (fun d2 u => initWrite d2 (kf u)) db)).values k = [r]
      ∧ r.value = 0 := by
  induction us generalizing db with
  | nil => exact h
  | cons u0 rest ih =>
      exact ih _ (initWrite_keyUnique db (kf u0) hku)
        (initWrite_keeps db k (kf u0) hku h)

theorem initFoldUnits_written (us : List String) (kf : String → VKey) (db : DB)
    (u : String) (hku : keyUnique db.values) (hmem : u ∈ us) :
    ∃ r, getRows ((us.foldl (fun d2 u => initWrite d2 (kf u)) db)).values (kf u) = [r]
      ∧ r.value = 0 := by
  induction us generalizing db with
  | nil => simp at hmem
  | cons u0 rest ih =>
      rcases List.mem_cons.mp hmem with h | h
      · subst h
        exact initFoldUnits_keeps rest kf _ (kf u) (initWrite_keyUnique db (kf u) hku)
          (initWrite_written db (kf u) hku)
      · exact ih _ (initWrite_keyUnique db (kf u0) hku) h

theorem dedupUnits_mem (attrs : List ComponentAttribute) (u : String)
    (h : u ∈ attrs.map (·.unit)) : u ∈ dedupUnits attrs := by
  unfold dedupUnits
  suffices haux : ∀ (acc : List String), u ∈ acc ∨ u ∈ attrs.map (·.unit) →
      u ∈ attrs.foldl (fun acc a => if acc.contains a.unit then acc else acc ++ [a.unit]) acc by
    exact haux [] (Or.inr h)
  clear h
  induction attrs with
  | nil =>
      intro acc h
      rcases h with h | h
      · exact h
      · simp at h
  | cons a rest ih =>
      intro acc h
      rw [List.foldl_cons]
      apply ih
      by_cases hc : acc.contains a.unit
      · rw [if_pos hc]
        rcases h with h | h
        · exact Or.inl h
        · rw [List.map_cons] at h
          rcases List.mem_cons.mp h with h2 | h2
          · left
            rw [h2]
            simpa using hc
          · exact Or.inr h2
      · rw [if_neg hc]
        rcases h with h | h
        · exact Or.inl (List.mem_append.mpr (Or.inl h))
        · rw [List.map_cons] at h
          rcases List.mem_cons.mp h with h2 | h2
          · exact Or.inl (List.mem_append.mpr (Or.inr (by simp [h2])))
          · exact Or.inr h2

theorem initFoldComps_keyUnique (comps : List DataCenterComponent) (dcId : Nat) (db : DB)
    (hku : keyUnique db.values) :
    keyUnique ((comps.foldl (fun d c => (dedupUnits c.attributes).foldl
      (fun d2 u => initWrite d2 (some dcId, some c.id, u)) d) db)).values := by
  induction comps generalizing db with
  | nil => exact hku
  | cons c0 rest ih =>
      exact ih _ (initFoldUnits_keyUnique (dedupUnits c0.attributes)
        (fun u => (some dcId, some c0.id, u)) db hku)

theorem initFoldComps_keeps (comps : List DataCenterComponent) (dcId : Nat) (db : DB)
    (k : VKey) (hku : keyUnique db.values)
    (h : ∃ r, getRows db.values k = [r] ∧ r.value = 0) :
    ∃ r, getRows ((comps.foldl (fun d c => (dedupUnits c.attributes).foldl
      (fun d2 u => initWrite d2 (some dcId, some c.id, u)) d) db)).values k = [r]
      ∧ r.value = 0 := by
  induction comps generalizing db with
  | nil => exact h
  | cons c0 rest ih =>
      exact ih _ (initFoldUnits_keyUnique (dedupUnits c0.attributes)
          (fun u => (some dcId, some c0.id, u)) db hku)
        (initFoldUnits_keeps (dedupUnits c0.attributes)
          (fun u => (some dcId, some c0.id, u)) db k hku h)

theorem initFoldComps_written (comps : List DataCenterComponent) (dcId : Nat) (db : DB)
    (c : DataCenterComponent) (u : String) (hku : keyUnique db.values)
    (hc : c ∈ comps) (hu : u ∈ dedupUnits c.attributes) :
    ∃ r, getRows ((comps.foldl (fun d c => (dedupUnits c.attributes).foldl
      (fun d2 u => initWrite d2 (some dcId, some c.id, u)) d) db)).values
      (some dcId, some c.id, u) = [r] ∧ r.value = 0 := by
  induction comps generalizing db with
  | nil => simp at hc
  | cons c0 rest ih =>
      rcases List.mem_cons.mp hc with h | h
      · subst h
        exact initFoldComps_keeps rest dcId _ (some dcId, some c.id, u)
          (initFoldUnits_keyUnique (dedupUnits c.attributes)
            (fun u => (some dcId, some c.id, u)) db hku)
          (initFoldUnits_written (dedupUnits c.attributes)
            (fun u => (some dcId, some c.id, u)) db u hku hu)
      · exact ih _ (initFoldUnits_keyUnique (dedupUnits c0.attributes)
          (fun u => (some dcId, some c0.id, u)) db hku) h

/-- C3 (amended): initialization always writes zero — for every component
and every unit its specifications declare, after
`initialize_values_from_components` the (data center, component, unit) key
holds exactly one row of value 0 (on a key-unique store): the row is
created when absent and its value is overwritten to 0 when present. -/
theorem initialize_seeds_zero (db : DB) (dcId : Nat) (c : DataCenterComponent)
    (u : String) (hku : keyUnique db.values) (hc : c ∈ db.components)
    (hu : u ∈ c.attributes.map (·.unit)) :
    ∃ r, getRows (initialize_values_from_components db dcId).values
      (some dcId, some c.id, u) = [r] ∧ r.value = 0 := by
  unfold initialize_values_from_components
  have hbc : (if c.data_center = none then { c with data_center := some dcId } else c)
      ∈ db.components.map (fun c =>
        if c.data_center = none then { c with data_center := some dcId } else c) :=
    List.mem_map_of_mem _ hc
  have hid : (if c.data_center = none then { c with data_center := some dcId } else c).id
      = c.id := by
    by_cases hdc : c.data_center = none <;> simp [hdc]
  have hattrs : (if c.data_center = none then { c with data_center := some dcId } else c).attributes
      = c.attributes := by
    by_cases hdc : c.data_center = none <;> simp [hdc]
  have := initFoldComps_written
    (db.components.map (fun c =>
      if c.data_center = none then { c with data_center := some dcId } else c))
    dcId { db with components := db.components.map (fun c =>
      if c.data_center = none then { c with data_center := some dcId } else c) }
    (if c.data_center = none then { c with data_center := some dcId } else c)
    u hku hbc (by rw [hattrs]; exact dedupUnits_mem c.attributes u hu)
  rw [hid] at this
  exact this

/-- A component and store used by the C3 amended witness. -/
def c3w_db : DB :=
  { baseDB with
      components := [⟨1, "Rack", some 1, [⟨0, 0, 0, 0, 0, "Power", 10⟩]⟩]
      values := [⟨0, "Power", 5, some 1, some 1⟩]
      next_value_id := 1 }

theorem initialize_seeds_zero_witness :
    ∃ r, getRows (initialize_values_from_components c3w_db 1).values
      (some 1, some 1, "Power") = [r] ∧ r.value = 0 :=
  initialize_seeds_zero c3w_db 1 ⟨1, "Rack", some 1, [⟨0, 0, 0, 0, 0, "Power", 10⟩]⟩
    "Power" (by decide) (by decide) (by decide)

/-! ## Claim C10 -/

theorem resolve_components (db : DB) (comp? : Option DataCenterComponent)
    (dataCenterId : Option Nat) :
    ((resolve_data_center db comp? dataCenterId).1).components = db.components := by
  unfold resolve_data_center get_default
  cases dataCenterId with
  | some i => rfl
  | none =>
      cases comp? with
      | none =>
          cases hfind : db.data_centers.find? (fun d => d.name = "Default Data Center") <;>
            simp [hfind]
      | some c =>
          cases hdc : c.data_center with
          | some d => simp [hdc]
          | none =>
              cases hfind : db.data_centers.find? (fun d => d.name = "Default Data Center") <;>
                simp [hdc, hfind]

theorem force_components (db : DB) (dcId : Nat) :
    ((force_recalculate_values db dcId).1).components = db.components :=
  (calc_tables db (selectActiveModules db dcId) dcId).1

theorem find_map_update (comps : List DataCenterComponent) (cid : Nat)
    (c : DataCenterComponent) (dcid : Nat)
    (h : comps.find? (fun x => x.id = cid) = some c) :
    (comps.map (fun c2 => if c2.id = c.id then { c2 with data_center := some dcid }
        else c2)).find? (fun x => x.id = cid)
      = some { c with data_center := some dcid } := by
  have hcid : c.id = cid := by
    have := List.find?_some h
    simpa using this
  induction comps with
  | nil => simp at h
  | cons w rest ih =>
      by_cases hw : w.id = cid
      · rw [List.find?_cons_of_pos _ (by simpa using hw)] at h
        have hwc : w = c := Option.some.inj h
        subst hwc
        rw [List.map_cons, if_pos rfl]
        rw [List.find?_cons_of_pos]
        simpa using hw
      · rw [List.find?_cons_of_neg _ (by simpa using hw)] at h
        rw [List.map_cons, if_neg (by rw [hcid]; exact hw)]
        rw [List.find?_cons_of_neg _ (by simpa using hw)]
        exact ih h

theorem create_core_components (db : DB) (module : Module) (c : DataCenterComponent)
    (dataCenterId : Option Nat) (x y : Int) (dcStar : Nat)
    (hdc : (resolve_data_center db (some c) dataCenterId).2 = some dcStar) :
    ((create_active_module_core db module (some c) dataCenterId (some x) (some y)).1).components
      = if c.data_center = none
        then db.components.map
          (fun c2 => if c2.id = c.id then { c2 with data_center := some dcStar } else c2)
        else db.components := by
  have hpair : resolve_data_center db (some c) dataCenterId
      = ((resolve_data_center db (some c) dataCenterId).1, some dcStar) := by
    rw [← hdc]
  unfold create_active_module_core
  rw [hpair]
  by_cases h0 : c.data_center = none
  · rw [if_pos h0]
    simp only [h0, if_pos]
    rw [force_components]
    show (((resolve_data_center db (some c) dataCenterId).1).components).map _
      = db.components.map _
    rw [resolve_components]
  · rw [if_neg h0]
    simp only [h0, Bool.false_eq_true, if_neg, if_false]
    rw [force_components]
    show ((resolve_data_center db (some c) dataCenterId).1).components = db.components
    exact resolve_components db (some c) dataCenterId

/-- C10 (confirmed): placing a module with a component argument binds an
unbound component — when the component has no bound data center, the
operation persists the placement's resolved effective data center into the
component row; a component already bound to some data center is left
unchanged. -/
theorem place_binds_unbound_component (db : DB) (moduleId cid : Nat)
    (dataCenterId : Option Nat) (x y : Int) (module : Module)
    (c : DataCenterComponent) (dcStar : Nat)
    (hm : findModule? db moduleId = some module)
    (hc : findComponent? db cid = some c)
    (hdc : (resolve_data_center db (some c) dataCenterId).2 = some dcStar) :
    (c.data_center = none →
      findComponent? ((create_active_module db moduleId (some cid) dataCenterId
        (some x) (some y)).1) cid = some { c with data_center := some dcStar }) ∧
    (∀ d0, c.data_center = some d0 →
      findComponent? ((create_active_module db moduleId (some cid) dataCenterId
        (some x) (some y)).1) cid = some c) := by
  have hcreate : create_active_module db moduleId (some cid) dataCenterId (some x) (some y)
      = create_active_module_core db module (some c) dataCenterId (some x) (some y) := by
    unfold create_active_module
    rw [hm]
    dsimp only
    rw [hc]
  rw [hcreate]
  have hcomps := create_core_components db module c dataCenterId x y dcStar hdc
  constructor
  · intro h0
    rw [if_pos h0] at hcomps
    unfold findComponent?
    rw [hcomps]
    exact find_map_update db.components cid c dcStar hc
  · intro d0 h0
    rw [if_neg (by rw [h0]; simp)] at hcomps
    unfold findComponent?
    rw [hcomps]
    exact hc

/-- A database with an unbound component, for the C10 witness. -/
def c10_db : DB :=
  { baseDB with
      modules := [⟨1, "M", []⟩]
      components := [⟨5, "Row", none, []⟩] }

theorem place_binds_unbound_component_witness :
    findComponent? ((create_active_module c10_db 1 (some 5) (some 1)
      (some 3) (some 4)).1) 5 = some ⟨5, "Row", some 1, []⟩ :=
  (place_binds_unbound_component c10_db 1 5 (some 1) 3 4 ⟨1, "M", []⟩ ⟨5, "Row", none, []⟩ 1
    (by decide) (by decide) (by decide)).1 rfl

end TopRack
